import Mathlib

/-!
Verification of the streaming event reconstruction and multi-session process
supervision subsystem of the ClaudeGUI repository.

The definitions below are shallow embeddings of the TypeScript source:
  * `framerLoop` / `runFramer` embed the stdout line framing loop of
    `ClaudeProcess.start` (src/main/claude-process.ts, stdout data handler);
  * later sections embed the delta batcher, the process registry, the
    persistence upsert handler, the session-switch lock and the renderer-side
    conversation reducer.

Machine strings are modelled as `String` or `List Char`; JavaScript `Map`
objects (which preserve insertion order) are modelled as association lists.
-/

set_option autoImplicit false
set_option maxHeartbeats 1000000

namespace ClaudeGUI

/-! ## Line Framer (src/main/claude-process.ts, lines 176-209)

The stdout handler appends each chunk to `stdoutBuffer`, then repeatedly
splits at the first `'\n'`, strips one trailing `'\r'`, and hands the line to
`handleStreamLine` only when `line.trim()` is non-empty.  Leftover data with
no newline stays in the buffer. -/

/-- Whitespace characters removed by JavaScript `String.prototype.trim`
(the ASCII ones plus NBSP and the BOM; the remaining Unicode space
separators do not occur in any input considered here). -/
def jsWhitespace (c : Char) : Bool :=
  c = ' ' || c = '\t' || c = '\n' || c = '\r' ||
  c = Char.ofNat 11 || c = Char.ofNat 12 || c = Char.ofNat 160 ||
  c = Char.ofNat 65279

/-- A line is blank when `line.trim()` is falsy, i.e. every character is
JavaScript whitespace. -/
def isBlankLine (l : List Char) : Bool := l.all jsWhitespace

/-- Remove one trailing carriage return, as
`if (line.endsWith('\r')) line = line.slice(0, -1)` does. -/
def stripCR (l : List Char) : List Char :=
  if l.getLast? = some '\r' then l.dropLast else l

/-- The framing loop yields a line to `handleStreamLine` only when, after
CR-stripping, `line.trim()` is truthy. -/
def emitLine (l : List Char) : Option (List Char) :=
  let s := stripCR l
  if isBlankLine s then none else some s

/-- One pass of the `while ((newlineIndex = this.stdoutBuffer.indexOf('\n')) !== -1)`
loop.  `acc` holds the reversed characters of the line being scanned; the
result is the list of yielded lines and the remaining (newline-free) buffer. -/
def framerLoop : List Char → List Char → List (List Char) × List Char
  | acc, [] => ([], acc.reverse)
  | acc, c :: cs =>
    if c = '\n' then
      let out := framerLoop [] cs
      ((emitLine acc.reverse).toList ++ out.1, out.2)
    else framerLoop (c :: acc) cs

/-- The `data` handler for one chunk: append to the buffer, then drain all
complete lines. -/
def framerChunk (st : List (List Char) × List Char) (chunk : List Char) :
    List (List Char) × List Char :=
  let r := framerLoop [] (st.2 ++ chunk)
  (st.1 ++ r.1, r.2)

/-- Deliver a sequence of raw chunks to the stdout handler, starting from an
empty buffer; returns all yielded lines in order and the final buffer. -/
def runFramer (chunks : List (List Char)) : List (List Char) × List Char :=
  chunks.foldl framerChunk ([], [])

theorem framerLoop_no_newline (l : List Char) (hl : '\n' ∉ l) :
    ∀ acc, framerLoop acc l = ([], acc.reverse ++ l) := by
  induction l with
  | nil => intro acc; simp [framerLoop]
  | cons c cs ih =>
    intro acc
    have hc : c ≠ '\n' := fun h => hl (h ▸ List.mem_cons_self c cs)
    have hcs : '\n' ∉ cs := fun h => hl (List.mem_cons_of_mem c h)
    simp only [framerLoop, if_neg hc, ih hcs]
    simp

theorem framerLoop_line (line : List Char) (hl : '\n' ∉ line) :
    ∀ (acc t : List Char),
      framerLoop acc (line ++ '\n' :: t) =
        ((emitLine (acc.reverse ++ line)).toList ++ (framerLoop [] t).1,
          (framerLoop [] t).2) := by
  induction line with
  | nil => intro acc t; simp [framerLoop]
  | cons c cs ih =>
    intro acc t
    have hc : c ≠ '\n' := fun h => hl (h ▸ List.mem_cons_self c cs)
    have hcs : '\n' ∉ cs := fun h => hl (List.mem_cons_of_mem c h)
    have hstep : framerLoop acc ((c :: cs) ++ '\n' :: t) =
        framerLoop (c :: acc) (cs ++ '\n' :: t) := by
      simp [framerLoop, hc]
    rw [hstep, ih hcs (c :: acc)]
    simp

theorem framerLoop_snd_no_newline (l : List Char) :
    ∀ acc, '\n' ∉ acc → '\n' ∉ (framerLoop acc l).2 := by
  induction l with
  | nil =>
    intro acc hacc
    simpa [framerLoop] using fun h => hacc (List.mem_reverse.mp h)
  | cons c cs ih =>
    intro acc hacc
    by_cases hc : c = '\n'
    · subst hc
      simpa [framerLoop] using ih [] (by simp)
    · have : framerLoop acc (c :: cs) = framerLoop (c :: acc) cs := by
        simp [framerLoop, hc]
      rw [this]
      exact ih (c :: acc) (by
        intro h
        rcases List.mem_cons.mp h with h | h
        · exact hc h.symm
        · exact hacc h)

theorem framerLoop_shift (r : List Char) :
    ∀ (acc z : List Char), '\n' ∉ r →
      framerLoop acc (r ++ z) = framerLoop (r.reverse ++ acc) z := by
  induction r with
  | nil => intro acc z _; simp
  | cons c cs ih =>
    intro acc z hr
    have hc : c ≠ '\n' := fun h => hr (h ▸ List.mem_cons_self c cs)
    have hcs : '\n' ∉ cs := fun h => hr (List.mem_cons_of_mem c h)
    have hstep : framerLoop acc ((c :: cs) ++ z) = framerLoop (c :: acc) (cs ++ z) := by
      simp [framerLoop, hc]
    rw [hstep, ih (c :: acc) z hcs]
    simp

theorem framerLoop_append (x : List Char) :
    ∀ (acc y : List Char),
      framerLoop acc (x ++ y) =
        ((framerLoop acc x).1 ++ (framerLoop (framerLoop acc x).2.reverse y).1,
          (framerLoop (framerLoop acc x).2.reverse y).2) := by
  induction x with
  | nil =>
    intro acc y
    simp only [List.nil_append]
    rw [show framerLoop acc [] = ([], acc.reverse) from rfl]
    simp
  | cons c cs ih =>
    intro acc y
    by_cases hc : c = '\n'
    · subst hc
      have h1 : framerLoop acc ('\n' :: (cs ++ y)) =
          ((emitLine acc.reverse).toList ++ (framerLoop [] (cs ++ y)).1,
            (framerLoop [] (cs ++ y)).2) := by
        simp [framerLoop]
      have h2 : framerLoop acc ('\n' :: cs) =
          ((emitLine acc.reverse).toList ++ (framerLoop [] cs).1,
            (framerLoop [] cs).2) := by
        simp [framerLoop]
      rw [List.cons_append, h1, h2, ih []]
      simp
    · have h1 : framerLoop acc ((c :: cs) ++ y) = framerLoop (c :: acc) (cs ++ y) := by
        simp [framerLoop, hc]
      have h2 : framerLoop acc (c :: cs) = framerLoop (c :: acc) cs := by
        simp [framerLoop, hc]
      rw [h1, h2, ih (c :: acc)]

theorem runFramer_flatten (chunks : List (List Char)) :
    runFramer chunks = framerLoop [] chunks.flatten := by
  suffices h : ∀ (cs : List (List Char)) (acc : List (List Char)) (buf : List Char),
      '\n' ∉ buf →
      cs.foldl framerChunk (acc, buf) =
        (acc ++ (framerLoop [] (buf ++ cs.flatten)).1,
          (framerLoop [] (buf ++ cs.flatten)).2) by
    have := h chunks [] [] (by simp)
    simpa [runFramer] using this
  intro cs
  induction cs with
  | nil =>
    intro acc buf hbuf
    rw [List.foldl_nil, List.flatten_nil, List.append_nil,
      framerLoop_no_newline buf hbuf []]
    simp
  | cons c cs ih =>
    intro acc buf hbuf
    rw [List.foldl_cons]
    show List.foldl framerChunk
        (acc ++ (framerLoop [] (buf ++ c)).1, (framerLoop [] (buf ++ c)).2) cs = _
    rw [ih (acc ++ (framerLoop [] (buf ++ c)).1) ((framerLoop [] (buf ++ c)).2)
      (framerLoop_snd_no_newline (buf ++ c) [] (by simp))]
    rw [framerLoop_shift ((framerLoop [] (buf ++ c)).2) [] cs.flatten
      (framerLoop_snd_no_newline (buf ++ c) [] (by simp))]
    rw [List.flatten_cons, ← List.append_assoc buf c cs.flatten,
      framerLoop_append (buf ++ c) [] cs.flatten]
    simp [List.append_assoc]

theorem framerLoop_wellformed (lines : List (List Char)) (rest : List Char)
    (hlines : ∀ l ∈ lines, '\n' ∉ l) (hrest : '\n' ∉ rest) :
    framerLoop [] ((lines.map (fun l => l ++ ['\n'])).flatten ++ rest) =
      (lines.filterMap emitLine, rest) := by
  induction lines with
  | nil => simpa using framerLoop_no_newline rest hrest []
  | cons l ls ih =>
    have hl : '\n' ∉ l := hlines l (List.mem_cons_self l ls)
    have hls : ∀ x ∈ ls, '\n' ∉ x := fun x hx => hlines x (List.mem_cons_of_mem l hx)
    have hshape : (((l :: ls).map (fun l => l ++ ['\n'])).flatten ++ rest) =
        l ++ '\n' :: ((ls.map (fun l => l ++ ['\n'])).flatten ++ rest) := by
      simp
    rw [hshape, framerLoop_line l hl [] _, ih hls]
    cases h : emitLine l <;> simp [List.filterMap_cons, h]

/-- C1 (amended): for every way of splitting an input into raw chunks, if the
concatenation consists of `n` newline-terminated lines followed by trailing
data containing no newline, the framing loop yields, in order, exactly those
of the `n` lines that are non-blank after CR-stripping (each with its
trailing carriage return stripped), and the trailing data stays buffered. -/
theorem c1_framer_chunk_invariance (chunks lines : List (List Char)) (rest : List Char)
    (hjoin : chunks.flatten = (lines.map (fun l => l ++ ['\n'])).flatten ++ rest)
    (hlines : ∀ l ∈ lines, '\n' ∉ l) (hrest : '\n' ∉ rest) :
    runFramer chunks = (lines.filterMap emitLine, rest) := by
  rw [runFramer_flatten, hjoin, framerLoop_wellformed lines rest hlines hrest]

/-- Witness for `c1_framer_chunk_invariance`: the input `"ab\r\nc"` delivered
as three odd-shaped chunks yields the single line `"ab"` (CR stripped) and
leaves `"c"` buffered. -/
theorem c1_framer_chunk_invariance_witness :
    runFramer [['a'], ['b', '\r'], ['\n', 'c']] = ([['a', 'b']], ['c']) := by
  have h := c1_framer_chunk_invariance [['a'], ['b', '\r'], ['\n', 'c']]
    [['a', 'b', '\r']] ['c'] (by decide) (by decide) (by decide)
  simpa [emitLine, stripCR, isBlankLine, jsWhitespace] using h

/-- C1 counterexample: the concatenation `"a\n\nb\n"` contains three
newline-terminated lines (`"a"`, `""`, `"b"`), but the framing loop yields
only two lines — the blank line is dropped by the `if (line.trim())` guard —
so the loop does not yield "exactly those n lines". -/
theorem c1_framer_counterexample :
    [['a', '\n', '\n', 'b', '\n']].flatten =
        (([['a'], [], ['b']].map (fun l => l ++ ['\n'])).flatten : List Char) ++ [] ∧
      (runFramer [['a', '\n', '\n', 'b', '\n']]).1.length = 2 ∧
      ([['a'], [], ['b']].map stripCR).length = 3 ∧
      (runFramer [['a', '\n', '\n', 'b', '\n']]).1 ≠ [['a'], [], ['b']].map stripCR := by
  refine ⟨by decide, by decide, by decide, by decide⟩

/-! ## Delta Batcher (src/main/claude-process.ts, lines 283-387)

`handleStreamLine` receives each parsed JSON line.  An `input_json_delta`
fragment is accumulated into `deltaBuffer` (a JavaScript `Map` from block
index to accumulated string, modelled as an insertion-ordered association
list) and nothing is emitted; any other ("structural") event first flushes
the buffer, additionally stops the timer (with one more flush of the
now-empty buffer) on `content_block_stop`, and is then forwarded. -/

/-- The fields of a parsed stdout JSON line that `handleStreamLine` reads:
`event.type`, `event.event?.type`, `event.event?.delta?.type`,
`event.event?.index` and `event.event?.delta?.partial_json`. -/
structure RawEvent where
  etype : Option String
  innerType : Option String
  deltaType : Option String
  index : Option Nat
  fragJson : Option String
deriving DecidableEq

/-- JavaScript `Map.prototype.set`: updates the value in place for an
existing key (preserving insertion order), otherwise appends. -/
def mapSet : List (Nat × String) → Nat → String → List (Nat × String)
  | [], k, v => [(k, v)]
  | (k', v') :: rest, k, v =>
    if k' = k then (k, v) :: rest else (k', v') :: mapSet rest k v

/-- JavaScript `Map.prototype.get` (first matching key). -/
def mapGet (m : List (Nat × String)) (k : Nat) : Option String :=
  (m.find? (fun p => p.1 == k)).map Prod.snd

/-- The delta-batching state of one `ClaudeProcess`. -/
structure BatcherState where
  deltaBuffer : List (Nat × String)
  lastDeltaEvent : Option RawEvent
  timerRunning : Bool
deriving DecidableEq

def initBatcher : BatcherState := ⟨[], none, false⟩

/-- What `sendToRenderer` receives, in order: a batched delta event per
buffered index, or a forwarded structural event. -/
inductive Emitted where
  | batched (index : Nat) (accJson : String) (template : RawEvent)
  | forwarded (ty : String) (ev : RawEvent)
deriving DecidableEq

/-- Events emitted by `flushDeltaBuffer`: one batched event per buffered
index whose accumulated string is truthy, provided `lastDeltaEvent` is set
(`if (accumulatedJson && this.lastDeltaEvent)`). -/
def flushEmits (s : BatcherState) : List Emitted :=
  s.deltaBuffer.filterMap (fun p =>
    match s.lastDeltaEvent with
    | some tmpl => if p.2 = "" then none else some (.batched p.1 p.2 tmpl)
    | none => none)

/-- `flushDeltaBuffer`: early-return on an empty buffer, otherwise emit the
batched events and clear the whole buffer. -/
def flushDeltaBuffer (s : BatcherState) : BatcherState × List Emitted :=
  if s.deltaBuffer.isEmpty then (s, [])
  else ({ s with deltaBuffer := [] }, flushEmits s)

/-- `stopDeltaFlushTimer`: clear the timer, then flush any remaining. -/
def stopDeltaFlushTimer (s : BatcherState) : BatcherState × List Emitted :=
  flushDeltaBuffer { s with timerRunning := false }

/-- The `DELTA_BATCH_INTERVAL` timer firing (`flushDeltaBuffer`). -/
def deltaTimerFire (s : BatcherState) : BatcherState × List Emitted :=
  flushDeltaBuffer s

/-- `handleStreamLine` on one parsed line. -/
def handleStreamLine (s : BatcherState) (e : RawEvent) : BatcherState × List Emitted :=
  if e.deltaType = some "input_json_delta" then
    let pj := e.fragJson.getD ""
    let blockIndex := e.index.getD 0
    let existing := (mapGet s.deltaBuffer blockIndex).getD ""
    ({ s with
        deltaBuffer := mapSet s.deltaBuffer blockIndex (existing ++ pj),
        lastDeltaEvent := some e,
        timerRunning := true }, [])
  else
    let r1 := if s.deltaBuffer.isEmpty then (s, ([] : List Emitted))
              else flushDeltaBuffer s
    let r2 := if e.innerType = some "content_block_stop" then stopDeltaFlushTimer r1.1
              else (r1.1, [])
    (r2.1, r1.2 ++ r2.2 ++ [.forwarded (e.etype.getD "unknown") e])

/-- Deliver a sequence of parsed lines, collecting the emitted events. -/
def handleLines (s : BatcherState) (es : List RawEvent) : BatcherState × List Emitted :=
  es.foldl (fun acc e =>
    let r := handleStreamLine acc.1 e
    (r.1, acc.2 ++ r.2)) (s, [])

/-- The fragment strings delivered for block index `i`, in arrival order. -/
def fragsAt (i : Nat) (evs : List RawEvent) : List String :=
  evs.filterMap (fun e =>
    if e.index.getD 0 = i then some (e.fragJson.getD "") else none)

def concatStrs : List String → String
  | [] => ""
  | a :: rest => a ++ concatStrs rest

/-- Extract the accumulated string of a batched event for block index `i`. -/
def batchedAt (i : Nat) : Emitted → Option String
  | .batched j a _ => if j = i then some a else none
  | .forwarded _ _ => none

theorem mapGet_cons (p : Nat × String) (rest : List (Nat × String)) (i : Nat) :
    mapGet (p :: rest) i = if p.1 = i then some p.2 else mapGet rest i := by
  by_cases h : p.1 = i
  · have hb : (p.1 == i) = true := by simpa using h
    simp [mapGet, List.find?, hb, h]
  · have hb : (p.1 == i) = false := by simpa using h
    simp [mapGet, List.find?, hb, h]

theorem mapGet_mapSet_self (m : List (Nat × String)) (k : Nat) (v : String) :
    mapGet (mapSet m k v) k = some v := by
  induction m with
  | nil => simp [mapSet, mapGet_cons]
  | cons p rest ih =>
    by_cases h : p.1 = k
    · simp [mapSet, h, mapGet_cons]
    · simpa [mapSet, h, mapGet_cons] using ih

theorem mapGet_mapSet_ne (m : List (Nat × String)) (k i : Nat) (v : String)
    (h : k ≠ i) : mapGet (mapSet m k v) i = mapGet m i := by
  induction m with
  | nil => simp [mapSet, mapGet_cons, mapGet, h]
  | cons p rest ih =>
    by_cases hp : p.1 = k
    · simp [mapSet, hp, mapGet_cons, h]
    · by_cases hpi : p.1 = i
      · have hik : ¬i = k := fun hh => h hh.symm
        simp [mapSet, hp, mapGet_cons, hpi, hik]
      · simpa [mapSet, hp, mapGet_cons, hpi] using ih

theorem keys_mapSet (m : List (Nat × String)) (k : Nat) (v : String) :
    (mapSet m k v).map Prod.fst = m.map Prod.fst ∨
      (mapSet m k v).map Prod.fst = m.map Prod.fst ++ [k] := by
  induction m with
  | nil => right; simp [mapSet]
  | cons p rest ih =>
    by_cases h : p.1 = k
    · left; simp [mapSet, h]
    · rcases ih with ih | ih
      · left; simp [mapSet, h, ih]
      · right; simp [mapSet, h, ih]

theorem nodup_keys_mapSet (m : List (Nat × String)) (k : Nat) (v : String)
    (h : (m.map Prod.fst).Nodup) (hk : mapGet m k = none) :
    ((mapSet m k v).map Prod.fst).Nodup ∧
      ∀ i, i ≠ k → mapGet m i = none → mapGet (mapSet m k v) i = none := by
  constructor
  · induction m with
    | nil => simp [mapSet]
    | cons p rest ih =>
      by_cases hp : p.1 = k
      · exfalso
        rw [mapGet_cons, if_pos hp] at hk
        exact Option.noConfusion hk
      · have h1 : (rest.map Prod.fst).Nodup := (List.nodup_cons.mp h).2
        have hk1 : mapGet rest k = none := by
          rwa [mapGet_cons, if_neg hp] at hk
        have := ih h1 hk1
        simp only [mapSet, if_neg hp, List.map_cons, List.nodup_cons]
        refine ⟨?_, this⟩
        intro hmem
        rcases keys_mapSet rest k v with hkeys | hkeys
        · rw [hkeys] at hmem
          exact (List.nodup_cons.mp h).1 hmem
        · rw [hkeys] at hmem
          rcases List.mem_append.mp hmem with hmem | hmem
          · exact (List.nodup_cons.mp h).1 hmem
          · simp at hmem
            exact hp hmem
  · intro i hik hi
    rw [mapGet_mapSet_ne m k i v (fun h => hik h.symm)]
    exact hi

theorem handleLines_cons (s : BatcherState) (e : RawEvent) (es : List RawEvent) :
    handleLines s (e :: es) =
      ((handleLines (handleStreamLine s e).1 es).1,
        (handleStreamLine s e).2 ++ (handleLines (handleStreamLine s e).1 es).2) := by
  show (e :: es).foldl _ (s, []) = _
  rw [List.foldl_cons]
  suffices h : ∀ (es : List RawEvent) (s' : BatcherState) (out : List Emitted),
      es.foldl (fun acc e =>
        let r := handleStreamLine acc.1 e
        (r.1, acc.2 ++ r.2)) (s', out) =
      ((handleLines s' es).1, out ++ (handleLines s' es).2) by
    rw [h es (handleStreamLine s e).1 ([] ++ (handleStreamLine s e).2)]
    simp
  intro es
  induction es with
  | nil => intro s' out; simp [handleLines]
  | cons e' es' ih =>
    intro s' out
    rw [List.foldl_cons, ih]
    conv_rhs => rw [show handleLines s' (e' :: es') =
      ((e' :: es').foldl (fun acc e =>
        let r := handleStreamLine acc.1 e
        (r.1, acc.2 ++ r.2)) (s', [])) from rfl]
    rw [List.foldl_cons, ih]
    simp

theorem handleLines_nil (s : BatcherState) : handleLines s [] = (s, []) := rfl

theorem handleStreamLine_frag (s : BatcherState) (e : RawEvent)
    (he : e.deltaType = some "input_json_delta") :
    handleStreamLine s e =
      ({ deltaBuffer := mapSet s.deltaBuffer (e.index.getD 0)
            (((mapGet s.deltaBuffer (e.index.getD 0)).getD "") ++ e.fragJson.getD ""),
         lastDeltaEvent := some e, timerRunning := true }, []) := by
  simp [handleStreamLine, he]

theorem handleLines_frag_silent (evs : List RawEvent) :
    ∀ s : BatcherState, (∀ e ∈ evs, e.deltaType = some "input_json_delta") →
      (handleLines s evs).2 = [] := by
  induction evs with
  | nil => intro s _; rfl
  | cons e rest ih =>
    intro s hfrag
    have he := hfrag e (List.mem_cons_self e rest)
    rw [handleLines_cons, handleStreamLine_frag s e he]
    simpa using ih _ (fun x hx => hfrag x (List.mem_cons_of_mem e hx))

theorem handleLines_frag_acc (evs : List RawEvent) (i : Nat) :
    ∀ s : BatcherState, (∀ e ∈ evs, e.deltaType = some "input_json_delta") →
      mapGet (handleLines s evs).1.deltaBuffer i =
        if fragsAt i evs = [] then mapGet s.deltaBuffer i
        else some ((mapGet s.deltaBuffer i).getD "" ++ concatStrs (fragsAt i evs)) := by
  induction evs with
  | nil => intro s _; simp [handleLines_nil, fragsAt]
  | cons e rest ih =>
    intro s hfrag
    have he := hfrag e (List.mem_cons_self e rest)
    have hrest := fun x hx => hfrag x (List.mem_cons_of_mem e hx)
    rw [handleLines_cons, handleStreamLine_frag s e he]
    by_cases hidx : e.index.getD 0 = i
    · have hfa : fragsAt i (e :: rest) = e.fragJson.getD "" :: fragsAt i rest := by
        simp [fragsAt, List.filterMap_cons, hidx]
      rw [ih _ hrest, hfa]
      rw [hidx, mapGet_mapSet_self]
      by_cases hr : fragsAt i rest = []
      · simp [hr, concatStrs, String.append_empty]
      · simp [hr, concatStrs, String.append_assoc]
    · have hfa : fragsAt i (e :: rest) = fragsAt i rest := by
        simp [fragsAt, List.filterMap_cons, hidx]
      rw [ih _ hrest, hfa, mapGet_mapSet_ne _ _ _ _ hidx]

theorem handleLines_frag_last (evs : List RawEvent) :
    ∀ s : BatcherState, (∀ e ∈ evs, e.deltaType = some "input_json_delta") →
      evs ≠ [] → ∃ e', (handleLines s evs).1.lastDeltaEvent = some e' := by
  induction evs with
  | nil => intro s _ h; exact absurd rfl h
  | cons e rest ih =>
    intro s hfrag _
    have he := hfrag e (List.mem_cons_self e rest)
    rw [handleLines_cons, handleStreamLine_frag s e he]
    by_cases hr : rest = []
    · subst hr
      exact ⟨e, rfl⟩
    · exact ih _ (fun x hx => hfrag x (List.mem_cons_of_mem e hx)) hr

theorem nodup_keys_mapSet_any (m : List (Nat × String)) (k : Nat) (v : String)
    (h : (m.map Prod.fst).Nodup) : ((mapSet m k v).map Prod.fst).Nodup := by
  induction m with
  | nil => simp [mapSet]
  | cons p rest ih =>
    by_cases hp : p.1 = k
    · subst hp
      simpa [mapSet] using h
    · have h2 := List.nodup_cons.mp h
      have ih2 := ih h2.2
      simp only [mapSet, if_neg hp, List.map_cons, List.nodup_cons]
      refine ⟨?_, ih2⟩
      intro hmem
      rcases keys_mapSet rest k v with hk | hk
      · exact h2.1 (hk ▸ hmem)
      · rw [hk] at hmem
        rcases List.mem_append.mp hmem with hmem | hmem
        · exact h2.1 hmem
        · simp at hmem
          exact hp hmem

theorem handleLines_frag_nodup (evs : List RawEvent) :
    ∀ s : BatcherState, (∀ e ∈ evs, e.deltaType = some "input_json_delta") →
      (s.deltaBuffer.map Prod.fst).Nodup →
      ((handleLines s evs).1.deltaBuffer.map Prod.fst).Nodup := by
  induction evs with
  | nil => intro s _ h; simpa [handleLines_nil] using h
  | cons e rest ih =>
    intro s hfrag hnd
    have he := hfrag e (List.mem_cons_self e rest)
    rw [handleLines_cons, handleStreamLine_frag s e he]
    exact ih _ (fun x hx => hfrag x (List.mem_cons_of_mem e hx))
      (nodup_keys_mapSet_any _ _ _ hnd)

theorem flushList_no_key (m : List (Nat × String)) (tmpl : RawEvent) (i : Nat)
    (h : ∀ q ∈ m, q.1 ≠ i) :
    ((m.filterMap (fun p =>
      if p.2 = "" then none else some (Emitted.batched p.1 p.2 tmpl))).filterMap
        (batchedAt i)) = [] := by
  induction m with
  | nil => simp
  | cons p rest ih =>
    have hp := h p (List.mem_cons_self p rest)
    have ihr := ih (fun q hq => h q (List.mem_cons_of_mem p hq))
    by_cases hv : p.2 = ""
    · simpa [List.filterMap_cons, hv] using ihr
    · simpa [List.filterMap_cons, hv, batchedAt, hp] using ihr

theorem flushList_at (m : List (Nat × String)) (tmpl : RawEvent) (i : Nat)
    (hnd : (m.map Prod.fst).Nodup) :
    ((m.filterMap (fun p =>
      if p.2 = "" then none else some (Emitted.batched p.1 p.2 tmpl))).filterMap
        (batchedAt i)) =
      match mapGet m i with
      | none => []
      | some a => if a = "" then [] else [a] := by
  induction m with
  | nil => simp [mapGet]
  | cons p rest ih =>
    have h2 := List.nodup_cons.mp hnd
    by_cases hpi : p.1 = i
    · have hrest : ∀ q ∈ rest, q.1 ≠ i := by
        intro q hq hqi
        have hmem : q.1 ∈ rest.map Prod.fst := List.mem_map_of_mem Prod.fst hq
        rw [hqi, ← hpi] at hmem
        exact h2.1 hmem
      by_cases hv : p.2 = ""
      · rw [mapGet_cons, if_pos hpi]
        simpa [List.filterMap_cons, hv, hpi]
          using flushList_no_key rest tmpl i hrest
      · rw [mapGet_cons, if_pos hpi]
        simpa [List.filterMap_cons, hv, batchedAt, hpi]
          using flushList_no_key rest tmpl i hrest
    · rw [mapGet_cons, if_neg hpi]
      by_cases hv : p.2 = ""
      · simpa [List.filterMap_cons, hv] using ih h2.2
      · simpa [List.filterMap_cons, hv, batchedAt, hpi] using ih h2.2

theorem flushEmits_at (s : BatcherState) (i : Nat) (tmpl : RawEvent)
    (hnd : (s.deltaBuffer.map Prod.fst).Nodup)
    (htmpl : s.lastDeltaEvent = some tmpl) :
    (flushEmits s).filterMap (batchedAt i) =
      match mapGet s.deltaBuffer i with
      | none => []
      | some a => if a = "" then [] else [a] := by
  have heq : flushEmits s = s.deltaBuffer.filterMap (fun p =>
      if p.2 = "" then none else some (Emitted.batched p.1 p.2 tmpl)) := by
    rw [flushEmits, htmpl]
  rw [heq]
  exact flushList_at s.deltaBuffer tmpl i hnd

/-- C2: for any sequence of `input_json_delta` fragment events delivered
between two flushes (the buffer holds nothing for the index beforehand, and
fragments for other indices may be interleaved), the fragments targeting one
block index are concatenated in arrival order, nothing is emitted before the
flush, the next flush emits exactly one batched event for that index carrying
the full concatenation, and afterwards the buffer is empty. -/
theorem c2_delta_batcher_concat (s : BatcherState) (i : Nat) (evs : List RawEvent)
    (hkeys : (s.deltaBuffer.map Prod.fst).Nodup)
    (hi : mapGet s.deltaBuffer i = none)
    (hfrag : ∀ e ∈ evs, e.deltaType = some "input_json_delta")
    (hne : concatStrs (fragsAt i evs) ≠ "") :
    (handleLines s evs).2 = [] ∧
      ((deltaTimerFire (handleLines s evs).1).2).filterMap (batchedAt i) =
        [concatStrs (fragsAt i evs)] ∧
      (deltaTimerFire (handleLines s evs).1).1.deltaBuffer = [] := by
  have hfa : fragsAt i evs ≠ [] := by
    intro h
    exact hne (by rw [h]; rfl)
  have hevs : evs ≠ [] := by
    intro h
    subst h
    exact hfa rfl
  have hacc := handleLines_frag_acc evs i s hfrag
  rw [if_neg hfa, hi] at hacc
  have hget : mapGet (handleLines s evs).1.deltaBuffer i =
      some (concatStrs (fragsAt i evs)) := by
    rw [hacc]
    rw [Option.getD_none, String.empty_append]
  have hnd := handleLines_frag_nodup evs s hfrag hkeys
  obtain ⟨tmpl, htmpl⟩ := handleLines_frag_last evs s hfrag hevs
  have hnonempty : ¬(handleLines s evs).1.deltaBuffer.isEmpty = true := by
    intro h
    rw [List.isEmpty_iff.mp h] at hget
    simp [mapGet] at hget
  refine ⟨handleLines_frag_silent evs s hfrag, ?_, ?_⟩
  · show ((flushDeltaBuffer _).2).filterMap (batchedAt i) = _
    rw [flushDeltaBuffer, if_neg hnonempty]
    show (flushEmits _).filterMap (batchedAt i) = _
    rw [flushEmits_at _ i tmpl hnd htmpl, hget]
    simp [hne]
  · show (flushDeltaBuffer _).1.deltaBuffer = []
    rw [flushDeltaBuffer, if_neg hnonempty]

/-- Witness for `c2_delta_batcher_concat`: fragments `"{\"a\""`, `":1"`,
`"}"` for block 2, with a fragment for block 5 interleaved, flush as the
single batched string `"{\"a\":1}"` for block 2 and empty the buffer. -/
theorem c2_delta_batcher_concat_witness :
    (handleLines initBatcher
        [⟨some "stream_event", some "content_block_delta", some "input_json_delta",
            some 2, some "\x7b\"a\""⟩,
          ⟨some "stream_event", some "content_block_delta", some "input_json_delta",
            some 5, some "xx"⟩,
          ⟨some "stream_event", some "content_block_delta", some "input_json_delta",
            some 2, some ":1"⟩,
          ⟨some "stream_event", some "content_block_delta", some "input_json_delta",
            some 2, some "\x7d"⟩]).2 = [] ∧
      ((deltaTimerFire (handleLines initBatcher
        [⟨some "stream_event", some "content_block_delta", some "input_json_delta",
            some 2, some "\x7b\"a\""⟩,
          ⟨some "stream_event", some "content_block_delta", some "input_json_delta",
            some 5, some "xx"⟩,
          ⟨some "stream_event", some "content_block_delta", some "input_json_delta",
            some 2, some ":1"⟩,
          ⟨some "stream_event", some "content_block_delta", some "input_json_delta",
            some 2, some "\x7d"⟩]).1).2).filterMap (batchedAt 2) = ["\x7b\"a\":1\x7d"] ∧
      (deltaTimerFire (handleLines initBatcher
        [⟨some "stream_event", some "content_block_delta", some "input_json_delta",
            some 2, some "\x7b\"a\""⟩,
          ⟨some "stream_event", some "content_block_delta", some "input_json_delta",
            some 5, some "xx"⟩,
          ⟨some "stream_event", some "content_block_delta", some "input_json_delta",
            some 2, some ":1"⟩,
          ⟨some "stream_event", some "content_block_delta", some "input_json_delta",
            some 2, some "\x7d"⟩]).1).1.deltaBuffer = [] := by
  have h := c2_delta_batcher_concat initBatcher 2
    [⟨some "stream_event", some "content_block_delta", some "input_json_delta",
        some 2, some "\x7b\"a\""⟩,
      ⟨some "stream_event", some "content_block_delta", some "input_json_delta",
        some 5, some "xx"⟩,
      ⟨some "stream_event", some "content_block_delta", some "input_json_delta",
        some 2, some ":1"⟩,
      ⟨some "stream_event", some "content_block_delta", some "input_json_delta",
        some 2, some "\x7d"⟩]
    (by decide) (by decide) (by decide) (by decide)
  simpa [fragsAt, concatStrs] using h

/-- C6: whenever a non-fragment (structural) line is handled, the emitted
sequence consists of the batched delta events for every buffered index
first, followed by the forwarded structural event last — a batched delta
never appears after the structural event that followed its fragments. -/
theorem c6_structural_pre_flush (s : BatcherState) (e : RawEvent)
    (hstruct : e.deltaType ≠ some "input_json_delta") :
    ∃ ds, (handleStreamLine s e).2 =
        ds ++ [Emitted.forwarded (e.etype.getD "unknown") e] ∧
      ∀ d ∈ ds, ∃ j a t, d = Emitted.batched j a t := by
  rw [handleStreamLine, if_neg hstruct]
  have hflush : ∀ s' : BatcherState, ∀ d ∈ (flushDeltaBuffer s').2,
      ∃ j a t, d = Emitted.batched j a t := by
    intro s' d hd
    rw [flushDeltaBuffer] at hd
    by_cases h : s'.deltaBuffer.isEmpty
    · rw [if_pos h] at hd
      exact absurd hd (List.not_mem_nil d)
    · rw [if_neg h] at hd
      obtain ⟨p, _, hp⟩ := List.mem_filterMap.mp hd
      cases htm : s'.lastDeltaEvent with
      | none => rw [htm] at hp; exact Option.noConfusion hp
      | some t =>
        rw [htm] at hp
        have hp' : (if p.2 = "" then none
            else some (Emitted.batched p.1 p.2 t)) = some d := hp
        by_cases hv : p.2 = ""
        · rw [if_pos hv] at hp'
          exact Option.noConfusion hp'
        · rw [if_neg hv] at hp'
          exact ⟨p.1, p.2, t, (Option.some.injEq _ _ ▸ hp').symm⟩
  by_cases hb : s.deltaBuffer.isEmpty
  · by_cases hstop : e.innerType = some "content_block_stop"
    · refine ⟨(stopDeltaFlushTimer s).2, by simp [hb, hstop], ?_⟩
      intro d hd
      exact hflush _ d hd
    · exact ⟨[], by simp [hb, hstop], by simp⟩
  · by_cases hstop : e.innerType = some "content_block_stop"
    · refine ⟨(flushDeltaBuffer s).2 ++ (stopDeltaFlushTimer (flushDeltaBuffer s).1).2,
        by simp [hb, hstop], ?_⟩
      intro d hd
      rcases List.mem_append.mp hd with hd | hd
      · exact hflush _ d hd
      · exact hflush _ d hd
    · refine ⟨(flushDeltaBuffer s).2, by simp [hb, hstop], ?_⟩
      intro d hd
      exact hflush _ d hd

/-- Witness for `c6_structural_pre_flush`: a `content_block_stop` line
arriving while block 0 holds buffered fragment text. -/
theorem c6_structural_pre_flush_witness :
    ((⟨some "stream_event", some "content_block_stop", none, some 0, none⟩ :
        RawEvent).deltaType ≠ some "input_json_delta") ∧
      ∃ ds, (handleStreamLine
          ⟨[(0, "{}")], some ⟨some "stream_event", some "content_block_delta",
            some "input_json_delta", some 0, some "{}"⟩, true⟩
          ⟨some "stream_event", some "content_block_stop", none, some 0, none⟩).2 =
          ds ++ [Emitted.forwarded "stream_event"
            ⟨some "stream_event", some "content_block_stop", none, some 0, none⟩] ∧
        ∀ d ∈ ds, ∃ j a t, d = Emitted.batched j a t := by
  refine ⟨by decide, ?_⟩
  exact c6_structural_pre_flush
    ⟨[(0, "{}")], some ⟨some "stream_event", some "content_block_delta",
      some "input_json_delta", some 0, some "{}"⟩, true⟩
    ⟨some "stream_event", some "content_block_stop", none, some 0, none⟩
    (by decide)

/-! ## Session Process lifecycle and Session Registry
(src/main/claude-process.ts lines 115-138, 389-453;
src/main/claude-process-manager.ts lines 23-135)

`ClaudeProcess` instances are modelled as records; the OS subprocess bound
to an instance is a pid drawn from a fresh counter, and `kill('SIGTERM')`
records the pid as killed.  Host facilities (path resolution, the CLI
executable search) are parameters in `SpawnEnv`. -/

/-- Envelope sent over `claude:stream` to the renderer: `type`, `sessionId`,
and the payload fields the claims inspect. -/
structure Envelope where
  etype : String
  sessionId : String
  errMsg : Option String
  statusVal : Option String
deriving DecidableEq

def errEnv (sid msg : String) : Envelope := ⟨"error", sid, some msg, none⟩

def emitToEnvelope (sid : String) : Emitted → Envelope
  | .batched _ _ _ => ⟨"stream_event", sid, none, none⟩
  | .forwarded t _ => ⟨t, sid, none, none⟩

/-- Host environment for spawning: `path.resolve`, `os.homedir()`, and
whether `findClaudeCli` locates the executable. -/
structure SpawnEnv where
  resolve : String → String
  homeDir : String
  cliFound : Bool

/-- State of one `ClaudeProcess` instance (the class fields used by
start/stop/send/isRunning). -/
structure ProcInst where
  sessionId : String
  pid : Option Nat
  currentCwd : Option String
  messageIdCounter : Nat
  stdoutBuf : List Char
  hasCli : Bool
  heartbeatOn : Bool
  batcher : BatcherState
  eventCounter : Nat
deriving DecidableEq

/-- The fresh pid counter and the set of pids that received `SIGTERM`. -/
structure OsWorld where
  nextPid : Nat
  killed : List Nat
deriving DecidableEq

/-- The constructor `new ClaudeProcess(window, sessionId)`. -/
def newProcInst (env : SpawnEnv) (sid : String) : ProcInst :=
  ⟨sid, none, none, 0, [], env.cliFound, false, initBatcher, 0⟩

/-- `validateCwd`: resolve, then clamp to the allow-listed roots, falling
back to the home directory. -/
def validateCwd (env : SpawnEnv) (cwd : String) : String :=
  let resolved := env.resolve cwd
  let safePaths := [env.homeDir, "C:\\Users", "C:\\Projects", "D:\\", "E:\\"]
  if safePaths.any (fun sp => resolved.toLower.startsWith sp.toLower)
  then resolved else env.homeDir

/-- `ClaudeProcess.stop()`: tear down heartbeat, delta batching (final
flush), buffers, and send `SIGTERM` to the bound subprocess if any. -/
def procStop (inst : ProcInst) (w : OsWorld) :
    ProcInst × OsWorld × List Envelope :=
  let r := stopDeltaFlushTimer inst.batcher
  let inst1 : ProcInst :=
    { inst with
        heartbeatOn := false,
        batcher := ⟨[], none, false⟩,
        stdoutBuf := [],
        pid := none,
        eventCounter := 0 }
  match inst.pid with
  | some p => (inst1, ⟨w.nextPid, p :: w.killed⟩, r.2.map (emitToEnvelope inst.sessionId))
  | none => (inst1, w, r.2.map (emitToEnvelope inst.sessionId))

/-- `ClaudeProcess.start(cwd, resumeSessionId?)`: stop any existing process,
re-check the CLI path, validate the cwd, spawn, notify, start heartbeat. -/
def procStart (env : SpawnEnv) (inst : ProcInst) (w : OsWorld) (cwd : String) :
    ProcInst × OsWorld × List Envelope :=
  let r0 := procStop inst w
  let inst1 := if r0.1.hasCli then r0.1 else { r0.1 with hasCli := env.cliFound }
  if inst1.hasCli then
    let safeCwd := validateCwd env cwd
    ({ inst1 with
        pid := some r0.2.1.nextPid,
        currentCwd := some safeCwd,
        messageIdCounter := 0,
        heartbeatOn := true },
      ⟨r0.2.1.nextPid + 1, r0.2.1.killed⟩,
      r0.2.2 ++ [⟨"status", inst.sessionId, none, some "started"⟩])
  else
    (inst1, r0.2.1,
      r0.2.2 ++ [errEnv inst.sessionId
        "Claude CLI not found. Please install it with: npm install -g @anthropic-ai/claude-code"])

/-- `ClaudeProcess.send(message)`: explicit error envelope if no process is
bound, otherwise one newline-delimited JSON record is written to the
subprocess stdin (the written user text is returned). -/
def procSend (inst : ProcInst) (message : String) : List Envelope × List String :=
  if inst.pid = none then
    ([errEnv inst.sessionId "Claude process not running. Please restart."], [])
  else
    ([], [message])

/-- Insertion-order-preserving `Map.set` for the registry. -/
def alSet : List (String × ProcInst) → String → ProcInst → List (String × ProcInst)
  | [], k, v => [(k, v)]
  | (k', v') :: rest, k, v =>
    if k' = k then (k, v) :: rest else (k', v') :: alSet rest k v

/-- `Map.get` for the registry. -/
def alGet (m : List (String × ProcInst)) (k : String) : Option ProcInst :=
  (m.find? (fun p => p.1 == k)).map Prod.snd

/-- `ClaudeProcessManager`: the id-keyed collection of `ClaudeProcess`
instances. -/
structure Manager where
  processes : List (String × ProcInst)
deriving DecidableEq

/-- `ClaudeProcessManager.start(sessionId, cwd, claudeSessionId?)`: reuse
(after stopping, if running) or create the instance for the session, then
start it. -/
def mgrStart (env : SpawnEnv) (m : Manager) (w : OsWorld) (sid cwd : String) :
    Manager × OsWorld × List Envelope :=
  match alGet m.processes sid with
  | some inst =>
    let r0 := if inst.pid.isSome then procStop inst w else (inst, w, [])
    let r1 := procStart env r0.1 r0.2.1 cwd
    (⟨alSet m.processes sid r1.1⟩, r1.2.1, r0.2.2 ++ r1.2.2)
  | none =>
    let inst := newProcInst env sid
    let r1 := procStart env inst w cwd
    (⟨alSet m.processes sid r1.1⟩, r1.2.1, r1.2.2)

/-- `ClaudeProcessManager.send(sessionId, message)`: explicit "not running"
error envelopes when the session has no registered or no running process. -/
def mgrSend (m : Manager) (sid message : String) : List Envelope × List String :=
  match alGet m.processes sid with
  | none =>
    ([errEnv sid "No Claude process running for this session. Please restart."], [])
  | some inst =>
    if inst.pid = none then
      ([errEnv sid "Claude process not running. Please restart."], [])
    else
      procSend inst message

theorem alGet_alSet_self (m : List (String × ProcInst)) (k : String) (v : ProcInst) :
    alGet (alSet m k v) k = some v := by
  induction m with
  | nil => simp [alSet, alGet, List.find?]
  | cons p rest ih =>
    by_cases h : p.1 = k
    · simp [alSet, alGet, List.find?, h]
    · have hb : (p.1 == k) = false := by simpa using h
      simp only [alSet, if_neg h]
      simpa [alGet, List.find?, hb] using ih

def keyCount (m : List (String × ProcInst)) (k : String) : Nat :=
  (m.filter (fun p => p.1 == k)).length

theorem keyCount_cons (p : String × ProcInst) (rest : List (String × ProcInst))
    (k : String) :
    keyCount (p :: rest) k = (if p.1 = k then 1 else 0) + keyCount rest k := by
  by_cases h : p.1 = k
  · have hb : (p.1 == k) = true := by simpa using h
    simp [keyCount, List.filter_cons, hb, h]
    omega
  · have hb : (p.1 == k) = false := by simpa using h
    simp [keyCount, List.filter_cons, hb, h]

theorem keyCount_alSet (m : List (String × ProcInst)) (k : String) (v : ProcInst) :
    keyCount (alSet m k v) k = max 1 (keyCount m k) := by
  induction m with
  | nil =>
    show keyCount [(k, v)] k = max 1 (keyCount [] k)
    rw [keyCount_cons]
    simp [keyCount]
  | cons p rest ih =>
    by_cases h : p.1 = k
    · rw [show alSet (p :: rest) k v = (k, v) :: rest from by simp [alSet, h]]
      rw [keyCount_cons, keyCount_cons, if_pos rfl, if_pos h]
      omega
    · rw [show alSet (p :: rest) k v = p :: alSet rest k v from by simp [alSet, h]]
      rw [keyCount_cons, keyCount_cons, ih, if_neg h]
      omega

theorem keyCount_zero_of_alGet_none (m : List (String × ProcInst)) (k : String)
    (h : alGet m k = none) : keyCount m k = 0 := by
  induction m with
  | nil => rfl
  | cons p rest ih =>
    by_cases hp : p.1 = k
    · have hb : (p.1 == k) = true := by simpa using hp
      simp [alGet, List.find?, hb] at h
    · have hb : (p.1 == k) = false := by simpa using hp
      simp only [keyCount, List.filter, hb]
      exact ih (by simpa [alGet, List.find?, hb] using h)

/-- C3: starting a session twice in succession leaves exactly one registry
entry for the id, the instance is bound to the second spawned pid only (at
most one live subprocess), the first spawned pid has been SIGTERMed, and the
second has not. -/
theorem c3_registry_at_most_one_process (env : SpawnEnv) (m : Manager) (w : OsWorld)
    (sid cwd cwd2 : String)
    (hnew : alGet m.processes sid = none)
    (hcli : env.cliFound = true)
    (hfresh : ∀ p ∈ w.killed, p < w.nextPid) :
    keyCount (mgrStart env (mgrStart env m w sid cwd).1
        (mgrStart env m w sid cwd).2.1 sid cwd2).1.processes sid = 1 ∧
      (alGet (mgrStart env (mgrStart env m w sid cwd).1
          (mgrStart env m w sid cwd).2.1 sid cwd2).1.processes sid).map ProcInst.pid =
        some (some (w.nextPid + 1)) ∧
      w.nextPid ∈ (mgrStart env (mgrStart env m w sid cwd).1
          (mgrStart env m w sid cwd).2.1 sid cwd2).2.1.killed ∧
      w.nextPid + 1 ∉ (mgrStart env (mgrStart env m w sid cwd).1
          (mgrStart env m w sid cwd).2.1 sid cwd2).2.1.killed ∧
      w.nextPid ≠ w.nextPid + 1 := by
  have h1 : mgrStart env m w sid cwd =
      (⟨alSet m.processes sid
          { newProcInst env sid with
              pid := some w.nextPid,
              currentCwd := some (validateCwd env cwd),
              heartbeatOn := true }⟩,
        ⟨w.nextPid + 1, w.killed⟩,
        [⟨"status", sid, none, some "started"⟩]) := by
    rw [mgrStart]
    rw [hnew]
    simp [procStart, procStop, newProcInst, hcli, initBatcher, stopDeltaFlushTimer,
      flushDeltaBuffer, flushEmits]
  rw [h1]
  have h2 : alGet (alSet m.processes sid
      { newProcInst env sid with
          pid := some w.nextPid,
          currentCwd := some (validateCwd env cwd),
          heartbeatOn := true }) sid =
      some { newProcInst env sid with
          pid := some w.nextPid,
          currentCwd := some (validateCwd env cwd),
          heartbeatOn := true } := alGet_alSet_self _ _ _
  rw [mgrStart, h2]
  simp only [Option.isSome_some, if_pos]
  rw [show (procStop { newProcInst env sid with
      pid := some w.nextPid,
      currentCwd := some (validateCwd env cwd),
      heartbeatOn := true } ⟨w.nextPid + 1, w.killed⟩) =
    ({ newProcInst env sid with
        currentCwd := some (validateCwd env cwd) },
      ⟨w.nextPid + 1, w.nextPid :: w.killed⟩, []) from by
    simp [procStop, newProcInst, initBatcher, stopDeltaFlushTimer,
      flushDeltaBuffer, flushEmits]]
  rw [show (procStart env { newProcInst env sid with
      currentCwd := some (validateCwd env cwd) }
      ⟨w.nextPid + 1, w.nextPid :: w.killed⟩ cwd2) =
    ({ newProcInst env sid with
        pid := some (w.nextPid + 1),
        currentCwd := some (validateCwd env cwd2),
        heartbeatOn := true },
      ⟨w.nextPid + 2, w.nextPid :: w.killed⟩,
      [⟨"status", sid, none, some "started"⟩]) from by
    simp [procStart, procStop, newProcInst, hcli, initBatcher, stopDeltaFlushTimer,
      flushDeltaBuffer, flushEmits]]
  refine ⟨?_, ?_, ?_, ?_, by omega⟩
  · show keyCount (alSet (alSet m.processes sid _) sid _) sid = 1
    rw [keyCount_alSet, keyCount_alSet, keyCount_zero_of_alGet_none m.processes sid hnew]
    rfl
  · rw [alGet_alSet_self]
    rfl
  · exact List.mem_cons_self _ _
  · intro hmem
    rcases List.mem_cons.mp hmem with h | h
    · omega
    · exact absurd (hfresh _ h) (by omega)

/-- Witness for `c3_registry_at_most_one_process` at a concrete environment,
empty registry and fresh world. -/
theorem c3_registry_at_most_one_process_witness :
    keyCount (mgrStart ⟨id, "/home/u", true⟩
        (mgrStart ⟨id, "/home/u", true⟩ ⟨[]⟩ ⟨0, []⟩ "s1" "/home/u/a").1
        (mgrStart ⟨id, "/home/u", true⟩ ⟨[]⟩ ⟨0, []⟩ "s1" "/home/u/a").2.1
        "s1" "/home/u/b").1.processes "s1" = 1 ∧
      (alGet (mgrStart ⟨id, "/home/u", true⟩
          (mgrStart ⟨id, "/home/u", true⟩ ⟨[]⟩ ⟨0, []⟩ "s1" "/home/u/a").1
          (mgrStart ⟨id, "/home/u", true⟩ ⟨[]⟩ ⟨0, []⟩ "s1" "/home/u/a").2.1
          "s1" "/home/u/b").1.processes "s1").map ProcInst.pid = some (some 1) ∧
      0 ∈ (mgrStart ⟨id, "/home/u", true⟩
          (mgrStart ⟨id, "/home/u", true⟩ ⟨[]⟩ ⟨0, []⟩ "s1" "/home/u/a").1
          (mgrStart ⟨id, "/home/u", true⟩ ⟨[]⟩ ⟨0, []⟩ "s1" "/home/u/a").2.1
          "s1" "/home/u/b").2.1.killed := by
  have h := c3_registry_at_most_one_process ⟨id, "/home/u", true⟩ ⟨[]⟩ ⟨0, []⟩
    "s1" "/home/u/a" "/home/u/b" (by rfl) (by rfl) (by intro p hp; exact absurd hp (by simp))
  exact ⟨h.1, h.2.1, h.2.2.1⟩

/-- C8: `send` for a session id with no registered process, or whose process
is not running, emits exactly one session-tagged error envelope whose
message is one of the two "not running" messages of the source, and writes
nothing to any subprocess stdin. -/
theorem c8_send_not_running (m : Manager) (sid message : String)
    (h : alGet m.processes sid = none ∨
      ∃ inst, alGet m.processes sid = some inst ∧ inst.pid = none) :
    ∃ emsg, mgrSend m sid message = ([errEnv sid emsg], []) ∧
      (emsg = "No Claude process running for this session. Please restart." ∨
        emsg = "Claude process not running. Please restart.") := by
  rcases h with h | ⟨inst, hinst, hpid⟩
  · refine ⟨"No Claude process running for this session. Please restart.", ?_, Or.inl rfl⟩
    rw [mgrSend, h]
  · refine ⟨"Claude process not running. Please restart.", ?_, Or.inr rfl⟩
    rw [mgrSend, hinst]
    show (if inst.pid = none then _ else procSend inst message) = _
    rw [if_pos hpid]

/-- Witness for `c8_send_not_running`: an empty registry. -/
theorem c8_send_not_running_witness :
    ∃ emsg, mgrSend ⟨[]⟩ "s9" "hello" = ([errEnv "s9" emsg], []) ∧
      (emsg = "No Claude process running for this session. Please restart." ∨
        emsg = "Claude process not running. Please restart.") :=
  c8_send_not_running ⟨[]⟩ "s9" "hello" (Or.inl rfl)

/-! ## Session persistence upsert (src/main/ipc-handlers.ts, lines 211-223)

The `sessions:save` handler loads the stored list, replaces the entry with
the saved session's id in place if present (otherwise unshifts the new
session to the front), then trims to the first 50 entries. -/

/-- A stored session record (src/main/ipc-handlers.ts `StoredSession`). -/
structure StoredSession where
  id : String
  title : String
  workingDirectory : String
  createdAt : Nat
  updatedAt : Nat
  messageCount : Nat
  claudeSessionId : Option String
  totalCost : Option Rat
deriving DecidableEq

/-- The `sessions:save` handler body: `findIndex`, in-place replace or
`unshift`, then `slice(0, 50)`. -/
def saveSessionUpsert (sessions : List StoredSession) (session : StoredSession) :
    List StoredSession :=
  match sessions.findIdx? (fun s => s.id == session.id) with
  | some i => (sessions.set i session).take 50
  | none => (session :: sessions).take 50

/-- Replace the first entry carrying the given session's id (specification
helper used to reason about `findIndex` + in-place `set`). -/
def replaceFirstById : List StoredSession → StoredSession → List StoredSession
  | [], _ => []
  | t :: rest, s => if t.id = s.id then s :: rest else t :: replaceFirstById rest s

theorem saveSessionUpsert_not_present (ss : List StoredSession) (s : StoredSession)
    (h : ∀ t ∈ ss, t.id ≠ s.id) :
    saveSessionUpsert ss s = (s :: ss).take 50 := by
  rw [saveSessionUpsert]
  have hfind : ss.findIdx? (fun t => t.id == s.id) = none := by
    rw [List.findIdx?_eq_none_iff]
    intro t ht
    simpa using h t ht
  rw [hfind]

theorem findIdx_set_replaceFirst (ss : List StoredSession) (s : StoredSession)
    (h : ∃ t ∈ ss, t.id = s.id) :
    ∃ j, ss.findIdx? (fun x => x.id == s.id) = some j ∧
      ss.set j s = replaceFirstById ss s := by
  induction ss with
  | nil => obtain ⟨t, ht, _⟩ := h; exact absurd ht (List.not_mem_nil t)
  | cons t rest ih =>
    by_cases hm : t.id = s.id
    · refine ⟨0, ?_, ?_⟩
      · have hb : (t.id == s.id) = true := by simpa using hm
        simp [List.findIdx?_cons, List.findIdx?_succ, hb]
      · simp [replaceFirstById, hm]
    · have hrest : ∃ x ∈ rest, x.id = s.id := by
        obtain ⟨x, hx, hxid⟩ := h
        rcases List.mem_cons.mp hx with hx | hx
        · exact absurd (hx ▸ hxid) hm
        · exact ⟨x, hx, hxid⟩
      obtain ⟨j, hj, hset⟩ := ih hrest
      have hb : (t.id == s.id) = false := by simpa using hm
      refine ⟨j + 1, ?_, ?_⟩
      · simp [List.findIdx?_cons, List.findIdx?_succ, hb, hj]
      · simp [replaceFirstById, hm, hset]

theorem saveSessionUpsert_present (ss : List StoredSession) (s : StoredSession)
    (h : ∃ t ∈ ss, t.id = s.id) :
    saveSessionUpsert ss s = (replaceFirstById ss s).take 50 := by
  obtain ⟨j, hj, hset⟩ := findIdx_set_replaceFirst ss s h
  rw [saveSessionUpsert, hj]
  show (ss.set j s).take 50 = _
  rw [hset]

theorem replaceFirstById_length (ss : List StoredSession) (s : StoredSession) :
    (replaceFirstById ss s).length = ss.length := by
  induction ss with
  | nil => rfl
  | cons t rest ih =>
    by_cases hm : t.id = s.id
    · simp [replaceFirstById, hm]
    · simp [replaceFirstById, hm, ih]

theorem replaceFirstById_filter_eq (ss : List StoredSession) (s : StoredSession)
    (hnd : (ss.map StoredSession.id).Nodup) (h : ∃ t ∈ ss, t.id = s.id) :
    (replaceFirstById ss s).filter (fun t => t.id == s.id) = [s] := by
  induction ss with
  | nil => obtain ⟨t, ht, _⟩ := h; exact absurd ht (List.not_mem_nil t)
  | cons t rest ih =>
    have hnd2 := List.nodup_cons.mp hnd
    by_cases hm : t.id = s.id
    · have hnone : ∀ x ∈ rest, ¬((fun t => t.id == s.id) x = true) := by
        intro x hx hxid
        have : x.id ∈ rest.map StoredSession.id := List.mem_map_of_mem _ hx
        rw [show x.id = s.id by simpa using hxid, ← hm] at this
        exact hnd2.1 this
      have : rest.filter (fun t => t.id == s.id) = [] :=
        List.filter_eq_nil_iff.mpr hnone
      simp [replaceFirstById, hm, List.filter_cons, this]
    · have hrest : ∃ x ∈ rest, x.id = s.id := by
        obtain ⟨x, hx, hxid⟩ := h
        rcases List.mem_cons.mp hx with hx | hx
        · exact absurd (hx ▸ hxid) hm
        · exact ⟨x, hx, hxid⟩
      have hb : (t.id == s.id) = false := by simpa using hm
      simp [replaceFirstById, hm, List.filter_cons, hb, ih hnd2.2 hrest]

theorem replaceFirstById_filter_ne (ss : List StoredSession) (s : StoredSession) :
    (replaceFirstById ss s).filter (fun t => !(t.id == s.id)) =
      ss.filter (fun t => !(t.id == s.id)) := by
  induction ss with
  | nil => rfl
  | cons t rest ih =>
    by_cases hm : t.id = s.id
    · have hb : (t.id == s.id) = true := by simpa using hm
      simp [replaceFirstById, hm, List.filter_cons, hb]
    · have hb : (t.id == s.id) = false := by simpa using hm
      simp [replaceFirstById, hm, List.filter_cons, hb, ih]

/-- C9 (amended): saving a session into a stored list (no duplicate ids, at
most 50 entries) returns at most 50 entries; the saved id occurs exactly
once and its entry is the saved record; entries with other ids are preserved
in order up to the 50-entry cap (when a new id is inserted into a full list
the trailing entry is dropped); and a session whose id was not yet stored
appears at the front of the returned list. -/
theorem c9_save_session_upsert (ss : List StoredSession) (s : StoredSession)
    (hnd : (ss.map StoredSession.id).Nodup) (hlen : ss.length ≤ 50) :
    (saveSessionUpsert ss s).length ≤ 50 ∧
      (saveSessionUpsert ss s).filter (fun t => t.id == s.id) = [s] ∧
      (saveSessionUpsert ss s).filter (fun t => !(t.id == s.id)) =
        (ss.filter (fun t => !(t.id == s.id))).take
          (if s.id ∈ ss.map StoredSession.id then 50 else 49) ∧
      (s.id ∉ ss.map StoredSession.id → (saveSessionUpsert ss s).head? = some s) := by
  by_cases hpres : s.id ∈ ss.map StoredSession.id
  · obtain ⟨t, ht, htid⟩ := List.mem_map.mp hpres
    have hex : ∃ t ∈ ss, t.id = s.id := ⟨t, ht, htid⟩
    have heq := saveSessionUpsert_present ss s hex
    have hlenr : (replaceFirstById ss s).length ≤ 50 := by
      rw [replaceFirstById_length]; exact hlen
    have htake : (replaceFirstById ss s).take 50 = replaceFirstById ss s :=
      List.take_of_length_le hlenr
    rw [heq, htake]
    refine ⟨hlenr, replaceFirstById_filter_eq ss s hnd hex, ?_, ?_⟩
    · rw [if_pos hpres, replaceFirstById_filter_ne]
      exact (List.take_of_length_le
        (le_trans (List.length_filter_le _ _) hlen)).symm
    · intro habs; exact absurd hpres habs
  · have hnone : ∀ t ∈ ss, t.id ≠ s.id := by
      intro t ht htid
      exact hpres (htid ▸ List.mem_map_of_mem StoredSession.id ht)
    have heq := saveSessionUpsert_not_present ss s hnone
    have hcons : (s :: ss).take 50 = s :: ss.take 49 := by simp
    rw [heq, hcons]
    have hfilterss : ss.filter (fun t => !(t.id == s.id)) = ss := by
      rw [List.filter_eq_self]
      intro t ht
      simpa using hnone t ht
    have htail : (ss.take 49).filter (fun t => t.id == s.id) = [] := by
      rw [List.filter_eq_nil_iff]
      intro t ht hb
      exact hnone t (List.mem_of_mem_take ht) (by simpa using hb)
    have htail2 : (ss.take 49).filter (fun t => !(t.id == s.id)) = ss.take 49 := by
      rw [List.filter_eq_self]
      intro t ht
      simpa using hnone t (List.mem_of_mem_take ht)
    refine ⟨?_, ?_, ?_, fun _ => rfl⟩
    · have := List.length_take_le 49 ss
      simp only [List.length_cons]
      omega
    · simp [List.filter_cons, htail]
    · rw [if_neg hpres, hfilterss]
      have hb : (s.id == s.id) = true := by simp
      simp [List.filter_cons, hb, htail2]

/-- Witness for `c9_save_session_upsert`: upserting a fresh id into a
two-entry store puts it at the front and keeps both existing entries. -/
theorem c9_save_session_upsert_witness :
    (saveSessionUpsert
        [⟨"a", "", "", 0, 0, 0, none, none⟩, ⟨"b", "", "", 0, 0, 0, none, none⟩]
        ⟨"c", "t", "", 1, 2, 3, none, none⟩).filter
          (fun t => t.id == "c") = [⟨"c", "t", "", 1, 2, 3, none, none⟩] ∧
      (saveSessionUpsert
        [⟨"a", "", "", 0, 0, 0, none, none⟩, ⟨"b", "", "", 0, 0, 0, none, none⟩]
        ⟨"c", "t", "", 1, 2, 3, none, none⟩).head? =
        some ⟨"c", "t", "", 1, 2, 3, none, none⟩ := by
  have h := c9_save_session_upsert
    [⟨"a", "", "", 0, 0, 0, none, none⟩, ⟨"b", "", "", 0, 0, 0, none, none⟩]
    ⟨"c", "t", "", 1, 2, 3, none, none⟩ (by decide) (by decide)
  exact ⟨h.2.1, h.2.2.2 (by decide)⟩

/-- Session record with a numeric id, for bulk counterexample input. -/
def mkStoredSession (i : Nat) : StoredSession := ⟨toString i, "", "", 0, 0, 0, none, none⟩

/-- C9 counterexample: with 50 sessions already stored, saving a session
with a fresh id drops the 50th stored entry, so the returned list does not
preserve all other entries as the claim states. -/
theorem c9_save_session_counterexample :
    mkStoredSession 49 ∈ (List.range 50).map mkStoredSession ∧
      ((List.range 50).map mkStoredSession).length = 50 ∧
      mkStoredSession 49 ∉
        saveSessionUpsert ((List.range 50).map mkStoredSession) (mkStoredSession 99) ∧
      (saveSessionUpsert ((List.range 50).map mkStoredSession)
        (mkStoredSession 99)).head? = some (mkStoredSession 99) := by
  refine ⟨by decide, by decide, by decide, by decide⟩

/-! ## Session-switch serialization (src/renderer/App.tsx, lines 1081-1205)

`handleSelectSession` is guarded by `sessionSwitchLockRef`: a request
arriving while a switch is in flight is stored in the single-slot
`sessionSwitchQueueRef` (the latest wins) and replayed in the `finally`
block after the in-flight switch completes.  A switch is modelled as a task
with two pending phases — the snapshot of the outgoing session and the
hydration of the incoming one, separated by `await` points — and the
cooperative event loop is an adversarial scheduler over such tasks.  The
`finally` replay (a `setTimeout(0)` recursive call that reuses the same
stale closure) runs with the closure's `currentSessionId`
(`origCurrent`). -/

inductive SwitchPhase where
  | snapshot
  | hydrate
deriving DecidableEq

structure SwitchTask where
  sid : String
  origCurrent : Option String
  remaining : List SwitchPhase
deriving DecidableEq

inductive SwitchTrace where
  | enter (sid : String)
  | snap (sid : String)
  | hyd (sid : String)
  | complete (sid : String)
  | queued (sid : String)
deriving DecidableEq

structure SwitchWorld where
  lock : Bool
  queue : Option String
  current : Option String
  sessions : List String
  tasks : List SwitchTask
  trace : List SwitchTrace
deriving DecidableEq

/-- One invocation of `handleSelectSession(session)` with the closure's
`currentSessionId` equal to `closureCur`: return if already current, queue
if locked, otherwise acquire the lock and start the switch. -/
def switchRequest (w : SwitchWorld) (closureCur : Option String) (sid : String) :
    SwitchWorld :=
  if some sid = closureCur then w
  else if w.lock then
    { w with queue := some sid, trace := w.trace ++ [.queued sid] }
  else
    { w with lock := true,
             tasks := w.tasks ++ [⟨sid, closureCur, [.snapshot, .hydrate]⟩],
             trace := w.trace ++ [.enter sid] }

/-- Resume the in-flight switch task at index `i` past its next `await`
point.  Exhausting the phases runs the `finally` block: release the lock,
and replay the queued request (if any, and only when it differs from the
closure's stale `currentSessionId` and still names a known session). -/
def switchTickTask (w : SwitchWorld) (i : Nat) (t : SwitchTask) : SwitchWorld :=
  match t.remaining with
  | .snapshot :: rest =>
    { w with tasks := w.tasks.set i ⟨t.sid, t.origCurrent, rest⟩,
             trace := w.trace ++ [.snap t.sid] }
  | .hydrate :: rest =>
    { w with current := some t.sid,
             tasks := w.tasks.set i ⟨t.sid, t.origCurrent, rest⟩,
             trace := w.trace ++ [.hyd t.sid] }
  | [] =>
    let w1 : SwitchWorld :=
      { w with tasks := w.tasks.eraseIdx i,
               lock := false,
               trace := w.trace ++ [.complete t.sid] }
    match w1.queue with
    | some q =>
      if some q ≠ t.origCurrent then
        let w2 := { w1 with queue := none }
        if q ∈ w2.sessions then switchRequest w2 t.origCurrent q else w2
      else w1
    | none => w1

def switchTick (w : SwitchWorld) (i : Nat) : SwitchWorld :=
  match w.tasks.get? i with
  | none => w
  | some t => switchTickTask w i t

inductive SwitchCmd where
  | req (sid : String)
  | tick (i : Nat)
deriving DecidableEq

def switchStep (w : SwitchWorld) : SwitchCmd → SwitchWorld
  | .req sid => switchRequest w w.current sid
  | .tick i => switchTick w i

def runSwitch (w : SwitchWorld) (cs : List SwitchCmd) : SwitchWorld :=
  cs.foldl switchStep w

/-- Scan a trace keeping the id of the switch currently in flight; `none`
as result means the trace violates mutual exclusion (a snapshot, hydrate or
completion of a switch that is not the one in flight, or a switch entered
while another is in flight). -/
def scanTrace : Option String → List SwitchTrace → Option (Option String)
  | st, [] => some st
  | st, e :: r =>
    match st, e with
    | none, .enter s => scanTrace (some s) r
    | none, .queued _ => scanTrace none r
    | none, _ => none
    | some s, .snap s' => if s' = s then scanTrace (some s) r else none
    | some s, .hyd s' => if s' = s then scanTrace (some s) r else none
    | some s, .complete s' => if s' = s then scanTrace none r else none
    | some s, .queued _ => scanTrace (some s) r
    | some _, .enter _ => none

theorem scanTrace_append (t1 : List SwitchTrace) :
    ∀ (st : Option String) (t2 : List SwitchTrace),
      scanTrace st (t1 ++ t2) =
        match scanTrace st t1 with
        | some st' => scanTrace st' t2
        | none => none := by
  induction t1 with
  | nil => intro st t2; rfl
  | cons e r ih =>
    intro st t2
    match st, e with
    | none, .enter s => simpa [scanTrace] using ih (some s) t2
    | none, .queued s => simpa [scanTrace] using ih none t2
    | none, .snap s => simp [scanTrace]
    | none, .hyd s => simp [scanTrace]
    | none, .complete s => simp [scanTrace]
    | some s, .snap s' =>
      by_cases h : s' = s
      · simpa [scanTrace, h] using ih (some s) t2
      · simp [scanTrace, h]
    | some s, .hyd s' =>
      by_cases h : s' = s
      · simpa [scanTrace, h] using ih (some s) t2
      · simp [scanTrace, h]
    | some s, .complete s' =>
      by_cases h : s' = s
      · simpa [scanTrace, h] using ih none t2
      · simp [scanTrace, h]
    | some s, .queued s' => simpa [scanTrace] using ih (some s) t2
    | some s, .enter s' => simp [scanTrace]

/-- The serialization invariant: at most one switch task exists, the lock
is held exactly while one does, and the trace scans cleanly with the
in-flight switch as scanner state. -/
def SwitchInv (w : SwitchWorld) : Prop :=
  w.tasks.length ≤ 1 ∧ (w.lock = true ↔ w.tasks ≠ []) ∧
    scanTrace none w.trace =
      some (match w.tasks with | [] => none | t :: _ => some t.sid)

theorem switchRequest_inv (w : SwitchWorld) (closureCur : Option String) (sid : String)
    (h : SwitchInv w) : SwitchInv (switchRequest w closureCur sid) := by
  obtain ⟨hlen, hlock, hscan⟩ := h
  rw [switchRequest]
  by_cases h1 : some sid = closureCur
  · rw [if_pos h1]; exact ⟨hlen, hlock, hscan⟩
  · rw [if_neg h1]
    by_cases h2 : w.lock = true
    · rw [if_pos h2]
      obtain ⟨t, ts, hts⟩ : ∃ t ts, w.tasks = t :: ts := by
        cases hts : w.tasks with
        | nil => exact absurd hts (hlock.mp h2)
        | cons t ts => exact ⟨t, ts, rfl⟩
      refine ⟨by simpa using hlen, by simpa using hlock, ?_⟩
      rw [scanTrace_append, hscan]
      simp [hts, scanTrace]
    · rw [if_neg h2]
      have htasks : w.tasks = [] := by
        by_contra hne
        exact h2 (hlock.mpr hne)
      refine ⟨by simp [htasks], by simp [htasks], ?_⟩
      rw [scanTrace_append, hscan]
      simp [htasks, scanTrace]

theorem switchTick_inv (w : SwitchWorld) (i : Nat)
    (h : SwitchInv w) : SwitchInv (switchTick w i) := by
  obtain ⟨hlen, hlock, hscan⟩ := h
  rw [switchTick]
  cases hget : w.tasks.get? i with
  | none => exact ⟨hlen, hlock, hscan⟩
  | some t =>
    show SwitchInv (switchTickTask w i t)
    have hi : i < w.tasks.length := by
      by_contra hge
      rw [List.get?_eq_none.mpr (le_of_not_lt hge)] at hget
      exact Option.noConfusion hget
    have hi0 : i = 0 := by omega
    obtain ⟨t0, hts0⟩ := List.length_eq_one.mp (by omega : w.tasks.length = 1)
    have hts : w.tasks = [t] := by
      rw [hts0, hi0] at hget
      simp at hget
      rw [hts0, hget]
    have hlockT : w.lock = true := hlock.mpr (by simp [hts])
    rw [switchTickTask]
    cases hrem : t.remaining with
    | cons ph rest =>
      cases ph with
      | snapshot =>
        refine ⟨by simp [hts, hi0], ?_, ?_⟩
        · rw [hts, hi0]
          simp [hlockT]
        · rw [scanTrace_append, hscan]
          simp [hts, hi0, scanTrace]
      | hydrate =>
        refine ⟨by simp [hts, hi0], ?_, ?_⟩
        · rw [hts, hi0]
          simp [hlockT]
        · rw [scanTrace_append, hscan]
          simp [hts, hi0, scanTrace]
    | nil =>
      have hw1scan : scanTrace none (w.trace ++ [SwitchTrace.complete t.sid]) =
          some none := by
        rw [scanTrace_append, hscan]
        simp [hts, scanTrace]
      have hw1inv : SwitchInv
          { w with tasks := w.tasks.eraseIdx i, lock := false,
                   trace := w.trace ++ [.complete t.sid] } := by
        refine ⟨by simp [hts, hi0], by simp [hts, hi0], ?_⟩
        simpa [hts, hi0, List.eraseIdx] using hw1scan
      cases hq : w.queue with
      | none => simpa [hq] using hw1inv
      | some q =>
        show SwitchInv (if some q ≠ t.origCurrent then _ else _)
        by_cases hqe : some q ≠ t.origCurrent
        · rw [if_pos hqe]
          by_cases hmem : q ∈ w.sessions
          · have := switchRequest_inv
              { lock := false, queue := none, current := w.current,
                sessions := w.sessions, tasks := w.tasks.eraseIdx i,
                trace := w.trace ++ [.complete t.sid] } t.origCurrent q
              (by
                obtain ⟨a, b, c⟩ := hw1inv
                exact ⟨a, b, c⟩)
            simp only [hmem, if_pos]
            convert this using 2
          · simp only [hmem]
            rw [if_neg not_false]
            obtain ⟨a, b, c⟩ := hw1inv
            exact ⟨a, b, c⟩
        · rw [if_neg hqe]
          exact hw1inv

theorem runSwitch_inv (cs : List SwitchCmd) :
    ∀ w : SwitchWorld, SwitchInv w → SwitchInv (runSwitch w cs) := by
  induction cs with
  | nil => intro w h; exact h
  | cons c cs ih =>
    intro w h
    show SwitchInv (runSwitch (switchStep w c) cs)
    refine ih _ ?_
    cases c with
    | req sid => exact switchRequest_inv w w.current sid h
    | tick i => exact switchTick_inv w i h

/-- C7: session-switch mutual exclusion.  (1) From any idle start, under any
interleaving of switch requests and task resumptions, at most one switch
task is ever in flight and the event trace scans cleanly: the snapshot and
hydrate steps between one switch's start and completion belong to that
switch only, and no switch starts while another is in flight.  (2) In the
back-to-back scenario, the second request is queued and replays, in full,
only after the first switch's snapshot and hydration complete.  (3) With
three back-to-back requests, only the latest queued request survives and
replays. -/
theorem c7_switch_mutual_exclusion (cur : Option String) (sessions : List String)
    (cs : List SwitchCmd) :
    ((scanTrace none (runSwitch ⟨false, none, cur, sessions, [], []⟩ cs).trace).isSome
        = true ∧
      (runSwitch ⟨false, none, cur, sessions, [], []⟩ cs).tasks.length ≤ 1) ∧
      (runSwitch ⟨false, none, none, ["A", "B"], [], []⟩
          [.req "A", .req "B", .tick 0, .tick 0, .tick 0,
            .tick 0, .tick 0, .tick 0]).trace =
        [.enter "A", .queued "B", .snap "A", .hyd "A", .complete "A",
          .enter "B", .snap "B", .hyd "B", .complete "B"] ∧
      (runSwitch ⟨false, none, none, ["A", "B", "C"], [], []⟩
          [.req "A", .req "B", .req "C", .tick 0, .tick 0, .tick 0,
            .tick 0, .tick 0, .tick 0]).trace =
        [.enter "A", .queued "B", .queued "C", .snap "A", .hyd "A", .complete "A",
          .enter "C", .snap "C", .hyd "C", .complete "C"] := by
  refine ⟨?_, by decide, by decide⟩
  have h := runSwitch_inv cs ⟨false, none, cur, sessions, [], []⟩
    ⟨by simp, by simp, rfl⟩
  obtain ⟨hlen, _, hscan⟩ := h
  exact ⟨by rw [hscan]; rfl, hlen⟩

/-! ## Conversation Reducer (src/renderer/App.tsx, `handleStreamEvent`,
`flushToolJson`, and the QuantumStreamRenderer callbacks)

Per-session reducer state.  The parallel id-keyed maps of App.tsx
(`messagesPerSessionRef`, `toolJsonAccumulatorRef`, `quantumRendererRef`,
…) become the fields of one record for the session the events are tagged
with; "state for the current session vs. ref for background sessions" is a
distribution detail with identical update functions on both paths.
External host primitives are parameters: `JSON.parse` (a parsed object is
represented by the single field the reducer reads, `todos`, next to its
source text), `JSON.stringify`, and `Math.random`-based `generateId`
determinized as a counter.  A `QuantumStreamRenderer` instance is its FIFO
character buffer; its `requestAnimationFrame` drains and the 50 ms
tool-JSON flush interval are explicit scheduler events. -/

inductive ThinkStatus where
  | idle
  | thinking
  | responding
deriving DecidableEq

inductive ToolStatus where
  | running
  | complete
deriving DecidableEq

inductive BType where
  | text
  | thinking
  | toolUse
deriving DecidableEq

structure Todo where
  content : String
  status : String
  activeForm : String
deriving DecidableEq

/-- A JavaScript object produced by `JSON.parse`: the reducer reads only its
`todos` field; `raw` is its source text (object identity). -/
structure PVal where
  todos : Option (List Todo)
  raw : String
deriving DecidableEq

/-- Host primitives of the renderer environment. -/
structure Host where
  parseJson : String → Option PVal
  stringifyInput : Option PVal → String
  stringifyRaw : String → String

structure CBlock where
  bid : String
  btype : BType
  content : String
  isComplete : Bool
  toolName : Option String
  toolInput : Option PVal
  toolStatus : Option ToolStatus
deriving DecidableEq

structure RMessage where
  mid : String
  role : String
  content : List CBlock
  isStreaming : Bool
deriving DecidableEq

structure SessInfo where
  model : String
  contextUsed : Nat
  contextMax : Nat
  outputTokens : Nat
  totalCost : Rat
  slashCommands : List String
deriving DecidableEq

structure Usage where
  inputTokens : Option Nat
  outputTokens : Option Nat
deriving DecidableEq

/-- `data.content_block` of a `content_block_start` event. -/
structure BlockInfo where
  btype : String
  name : Option String
  input : Option PVal
  text : Option String
  thinkingText : Option String
deriving DecidableEq

/-- An element of `data.message.content` in a non-streaming `assistant`
event; `rawText` stands for the serialized form `JSON.stringify(block)`
used for unknown block types. -/
structure RawBlock where
  btype : String
  text : Option String
  thinkingText : Option String
  name : Option String
  input : Option PVal
  rawText : String
deriving DecidableEq

inductive RDelta where
  | textDelta (t : Option String)
  | thinkingDelta (t : Option String)
  | inputJsonDelta (pj : Option String)
deriving DecidableEq

/-- The per-session events `handleStreamEvent` dispatches on (after
unwrapping the `stream_event` envelope), plus the two timer/frame callbacks
that mutate the same session state. -/
inductive REvent where
  | statusEv (st : String)
  | errorEv
  | heartbeatEv
  | systemInit (model : Option String) (slash : Option (List String)) (sid : Option String)
  | messageStart (usage : Option Usage)
  | blockStart (index : Option Nat) (cb : Option BlockInfo)
  | blockDelta (index : Option Nat) (delta : Option RDelta)
  | blockStop (index : Option Nat)
  | messageDelta (usage : Option Usage)
  | messageStop
  | assistantEv (content : Option (List RawBlock)) (uuid : Option String)
  | resultEv (usage : Option Usage) (totalCost : Option Rat)
  | flushTimerFire
  | frameFire (index : Nat) (k : Nat)
deriving DecidableEq

/-- Per-session reducer state. -/
structure SessState where
  messages : List RMessage
  info : SessInfo
  todos : List Todo
  isStreaming : Bool
  thinking : ThinkStatus
  currentMessageId : Option String
  currentBlockIndex : Nat
  claudeSessionId : Option String
  streamStartTime : Option Nat
  toolJsonAcc : List (Nat × String)
  lastFlushed : List (Nat × Nat)
  toolNames : List (Nat × String)
  flushTimer : Bool
  renderers : List (Nat × String)
  nextIdNum : Nat
deriving DecidableEq

def initSessInfo : SessInfo := ⟨"claude-opus-4-5-20251101", 0, 200000, 0, 0, []⟩

def initSess : SessState :=
  ⟨[], initSessInfo, [], false, .idle, none, 0, none, none, [], [], [], false, [], 0⟩

/-- `generateId` determinized as a counter. -/
def genId (n : Nat) : String := "id-" ++ toString n

/-- JavaScript `a || b` on optional strings (empty string is falsy). -/
def strOr (o : Option String) (dflt : String) : String :=
  match o with
  | some v => if v = "" then dflt else v
  | none => dflt

/-- `Map.delete` (at most one entry per key in a JS `Map`). -/
def mapDel (m : List (Nat × String)) (k : Nat) : List (Nat × String) :=
  m.filter (fun p => !(p.1 == k))

def nmapSet : List (Nat × Nat) → Nat → Nat → List (Nat × Nat)
  | [], k, v => [(k, v)]
  | (k', v') :: rest, k, v =>
    if k' = k then (k, v) :: rest else (k', v') :: nmapSet rest k v

def nmapGet (m : List (Nat × Nat)) (k : Nat) : Option Nat :=
  (m.find? (fun p => p.1 == k)).map Prod.snd

/-- Update the block at array position `i` when it exists
(`if (updatedContent[idx]) updatedContent[idx] = …`). -/
def listUpdate (l : List CBlock) (i : Nat) (f : CBlock → CBlock) : List CBlock :=
  match l.get? i with
  | none => l
  | some b => l.set i (f b)

/-- `updateSessionMessages` restricted to mutating the content of the
message with the given id. -/
def updateMsgContent (msgs : List RMessage) (msgId : String)
    (f : List CBlock → List CBlock) : List RMessage :=
  msgs.map (fun m => if m.mid = msgId then { m with content := f m.content } else m)

/-- The `onRender` callback the reducer installs in each
QuantumStreamRenderer: append the drained text to the block at the
renderer's index of the in-flight message, read at call time. -/
def rendererOnRender (s : SessState) (blockIndex : Nat) (text : String) : SessState :=
  match s.currentMessageId with
  | none => s
  | some mid =>
    { s with messages := updateMsgContent s.messages mid (fun c =>
        listUpdate c blockIndex (fun b => { b with content := b.content ++ text })) }

/-- One index of the flush loop: `if (accumulated && updatedContent[idx])
updatedContent[idx] = { …, content: accumulated }`. -/
def flushStep (accm : List (Nat × String)) (cc : List CBlock) (idx : Nat) : List CBlock :=
  match mapGet accm idx with
  | some a =>
    if a ≠ "" then listUpdate cc idx (fun b => { b with content := a }) else cc
  | none => cc

/-- `flushToolJson(sessionId)` as the 50 ms interval fires: for every index
with newly accumulated tool JSON, write the full accumulated string into
that block's content and remember the flushed length. -/
def flushToolJson (s : SessState) : SessState :=
  match s.currentMessageId with
  | none => s
  | some mid =>
    let indices := s.toolJsonAcc.map Prod.fst
    if indices.isEmpty then s
    else
      let hasNew := indices.any (fun idx =>
        match mapGet s.toolJsonAcc idx with
        | some a => decide (a ≠ "") && decide (a.length > (nmapGet s.lastFlushed idx).getD 0)
        | none => false)
      if !hasNew then s
      else
        let lastFlushed' := indices.foldl (fun lf idx =>
          match mapGet s.toolJsonAcc idx with
          | some a =>
            if a ≠ "" ∧ a.length > (nmapGet lf idx).getD 0
            then nmapSet lf idx a.length else lf
          | none => lf) s.lastFlushed
        let msgs' := updateMsgContent s.messages mid (fun c =>
          indices.foldl (flushStep s.toolJsonAcc) c)
        { s with lastFlushed := lastFlushed', messages := msgs' }

/-- One `requestAnimationFrame` callback of the renderer at block index `i`
draining up to `k` buffered characters (the mode-dependent batch size and
word-boundary extension are absorbed into the universally quantified `k`). -/
def stepFrame (s : SessState) (i k : Nat) : SessState :=
  match mapGet s.renderers i with
  | none => s
  | some b =>
    let n := min k b.length
    if n = 0 then s
    else
      let s1 := rendererOnRender s i (b.take n)
      { s1 with renderers := mapSet s1.renderers i (b.drop n) }

/-- Build the complete content blocks of a non-streaming `assistant`
message. -/
def buildAssistantBlocks (h : Host) : List RawBlock → Nat → List CBlock × Nat
  | [], n => ([], n)
  | rb :: rest, n =>
    let blk : CBlock :=
      if rb.btype = "text" then
        ⟨genId n, .text, rb.text.getD "", true, none, none, none⟩
      else if rb.btype = "thinking" then
        ⟨genId n, .thinking, rb.thinkingText.getD "", true, none, none, none⟩
      else if rb.btype = "tool_use" then
        ⟨genId n, .toolUse, h.stringifyInput rb.input, true, rb.name, rb.input,
          some .complete⟩
      else
        ⟨genId n, .text, h.stringifyRaw rb.rawText, true, none, none, none⟩
    let r := buildAssistantBlocks h rest (n + 1)
    (blk :: r.1, r.2)

/-- One step of `handleStreamEvent` (plus the timer/frame callbacks) on one
session's state. -/
def stepEvent (h : Host) (now : Nat) (s : SessState) : REvent → SessState
  | .statusEv st =>
    if st = "stopped" then { s with isStreaming := false } else s
  | .errorEv => { s with isStreaming := false, thinking := .idle }
  | .heartbeatEv => s
  | .systemInit model slash sid =>
    { s with
        info := { s.info with
          model := strOr model s.info.model,
          slashCommands := slash.getD s.info.slashCommands },
        claudeSessionId :=
          match sid with
          | some v => if v ≠ "" then some v else s.claudeSessionId
          | none => s.claudeSessionId }
  | .messageStart usage =>
    let newId := genId s.nextIdNum
    let info' :=
      match usage with
      | some u => { s.info with
          contextUsed := u.inputTokens.getD 0,
          outputTokens := u.outputTokens.getD 0 }
      | none => s.info
    { s with
        isStreaming := true,
        streamStartTime := some now,
        currentMessageId := some newId,
        currentBlockIndex := 0,
        info := info',
        messages := s.messages ++ [⟨newId, "assistant", [], true⟩],
        nextIdNum := s.nextIdNum + 1 }
  | .blockStart index cb =>
    match s.currentMessageId, cb with
    | some mid, some block =>
      let blockIndex := index.getD s.currentBlockIndex
      let bt : BType :=
        if block.btype = "thinking" then .thinking
        else if block.btype = "tool_use" then .toolUse
        else .text
      let thinking' :=
        if block.btype = "thinking" then ThinkStatus.thinking
        else if block.btype = "text" then ThinkStatus.responding
        else s.thinking
      let toolNames' :=
        if block.btype = "tool_use" then
          match block.name with
          | some nm => if nm ≠ "" then mapSet s.toolNames blockIndex nm else s.toolNames
          | none => s.toolNames
        else s.toolNames
      let todos' :=
        if block.btype = "tool_use" ∧ block.name = some "TodoWrite" then
          match block.input with
          | some pv =>
            match pv.todos with
            | some ts => ts
            | none => s.todos
          | none => s.todos
        else s.todos
      let newBlock : CBlock :=
        ⟨genId s.nextIdNum, bt, strOr block.text (strOr block.thinkingText ""),
          false, block.name, block.input,
          if bt = .toolUse then some .running else none⟩
      { s with
          messages := updateMsgContent s.messages mid (fun c => c ++ [newBlock]),
          thinking := thinking',
          toolNames := toolNames',
          todos := todos',
          currentBlockIndex := blockIndex,
          nextIdNum := s.nextIdNum + 1 }
    | _, _ => s
  | .blockDelta index delta =>
    match s.currentMessageId, delta with
    | some _, some d =>
      let blockIndex := index.getD s.currentBlockIndex
      match d with
      | .textDelta t =>
        let txt := t.getD ""
        if txt ≠ "" then
          { s with renderers := (mapSet s.renderers blockIndex
              ((mapGet s.renderers blockIndex).getD "" ++ txt)) }
        else s
      | .thinkingDelta t =>
        let txt := t.getD ""
        if txt ≠ "" then
          { s with renderers := (mapSet s.renderers blockIndex
              ((mapGet s.renderers blockIndex).getD "" ++ txt)) }
        else s
      | .inputJsonDelta pj =>
        let chunk := pj.getD ""
        if chunk ≠ "" then
          { s with
              toolJsonAcc := (mapSet s.toolJsonAcc blockIndex
                ((mapGet s.toolJsonAcc blockIndex).getD "" ++ chunk)),
              flushTimer := true }
        else s
    | _, _ => s
  | .blockStop index =>
    match s.currentMessageId with
    | none => s
    | some mid =>
      let blockIndex := index.getD s.currentBlockIndex
      let s1 :=
        match mapGet s.renderers blockIndex with
        | some b =>
          let s' := if b ≠ "" then rendererOnRender s blockIndex b else s
          { s' with renderers := mapDel s'.renderers blockIndex }
        | none => s
      let finalJson := mapGet s1.toolJsonAcc blockIndex
      let acc' := mapDel s1.toolJsonAcc blockIndex
      let timer' := if acc'.isEmpty then false else s1.flushTimer
      let storedName := mapGet s1.toolNames blockIndex
      let preParsed : Option PVal :=
        match storedName, finalJson with
        | some nm, some j => if nm ≠ "" ∧ j ≠ "" then h.parseJson j else none
        | _, _ => none
      let todos' :=
        match preParsed with
        | some pv =>
          if storedName = some "TodoWrite" then
            match pv.todos with
            | some ts => ts
            | none => s1.todos
          else s1.todos
        | none => s1.todos
      let toolNames' := mapDel s1.toolNames blockIndex
      let msgs' := updateMsgContent s1.messages mid (fun c =>
        listUpdate c blockIndex (fun b =>
          let jsonContent :=
            match finalJson with
            | some j => if j ≠ "" then j else b.content
            | none => b.content
          let parsed1 :=
            match preParsed with
            | some pv => some pv
            | none => b.toolInput
          let parsed2 :=
            if preParsed = none ∧ b.btype = .toolUse ∧ jsonContent ≠ "" then
              match h.parseJson jsonContent with
              | some pv => some pv
              | none => parsed1
            else parsed1
          { b with
              content := jsonContent,
              isComplete := true,
              toolInput := parsed2,
              toolStatus :=
                match b.toolStatus with
                | some _ => some .complete
                | none => none }))
      { s1 with
          messages := msgs',
          toolJsonAcc := acc',
          toolNames := toolNames',
          flushTimer := timer',
          todos := todos' }
  | .messageDelta usage =>
    match usage with
    | some u =>
      match u.outputTokens with
      | some n =>
        if n ≠ 0 then { s with info := { s.info with outputTokens := n } } else s
      | none => s
    | none => s
  | .messageStop =>
    match s.currentMessageId with
    | none => s
    | some mid =>
      { s with messages := s.messages.map (fun m =>
          if m.mid = mid then { m with isStreaming := false } else m) }
  | .assistantEv content uuid =>
    let s0 := { s with isStreaming := false }
    match s.currentMessageId, content with
    | none, some blocks =>
      let built := buildAssistantBlocks h blocks s.nextIdNum
      let mid := match uuid with
        | some u => if u ≠ "" then u else genId built.2
        | none => genId built.2
      let extra := match uuid with
        | some u => if u ≠ "" then 0 else 1
        | none => 1
      { s0 with
          messages := s0.messages ++ [⟨mid, "assistant", built.1, false⟩],
          nextIdNum := built.2 + extra }
    | _, _ => s0
  | .resultEv usage totalCost =>
    let info' :=
      match usage with
      | some u =>
        { s.info with
            contextUsed :=
              match u.inputTokens with
              | some n => if n ≠ 0 then n else s.info.contextUsed
              | none => s.info.contextUsed,
            outputTokens := u.outputTokens.getD 0,
            totalCost :=
              match totalCost with
              | some c => if c ≠ 0 then c else s.info.totalCost
              | none => s.info.totalCost }
      | none => s.info
    { s with
        isStreaming := false,
        thinking := .idle,
        streamStartTime := none,
        currentMessageId := none,
        currentBlockIndex := 0,
        renderers := [],
        flushTimer := false,
        toolJsonAcc := [],
        lastFlushed := [],
        toolNames := [],
        info := info' }
  | .flushTimerFire => flushToolJson s
  | .frameFire i k => stepFrame s i k

/-- Process a list of per-session events in order. -/
def runReducer (h : Host) (s : SessState) (es : List REvent) : SessState :=
  es.foldl (stepEvent h 0) s

/-- String extension: `a` is an initial segment of `b`. -/
def strExt (a b : String) : Bool := a.data.isPrefixOf b.data

/-- Concrete host for evaluating the reducer on closed inputs: `JSON.parse`
that rejects every string, identity-ish stringifiers. -/
def cexHost : Host := ⟨fun _ => none, fun _ => "", fun r => r⟩

/-- The event sequence of end-to-end scenario 1, with the result event
carrying `total_cost_usd: 0.002` and no usage object (as the spec's literal
scenario event does). -/
def c4Events : List REvent :=
  [.systemInit (some "m1") none (some "abc"),
    .messageStart none,
    .blockStart (some 0) (some ⟨"text", none, none, none, none⟩),
    .blockDelta (some 0) (some (.textDelta (some "Hel"))),
    .blockDelta (some 0) (some (.textDelta (some "lo "))),
    .blockDelta (some 0) (some (.textDelta (some "world"))),
    .blockStop (some 0),
    .messageStop,
    .resultEv none (some 0.002)]

/-- Scenario 1 with the result event additionally carrying a usage object,
as real CLI result records do, and total cost `c`. -/
def c4EventsUsage (c : Rat) : List REvent :=
  [.systemInit (some "m1") none (some "abc"),
    .messageStart none,
    .blockStart (some 0) (some ⟨"text", none, none, none, none⟩),
    .blockDelta (some 0) (some (.textDelta (some "Hel"))),
    .blockDelta (some 0) (some (.textDelta (some "lo "))),
    .blockDelta (some 0) (some (.textDelta (some "world"))),
    .blockStop (some 0),
    .messageStop,
    .resultEv (some ⟨none, none⟩) (some c)]

/-- C4 counterexample: processing scenario 1 exactly as written — the
result event carries `total_cost_usd: 0.002` but no `usage` object — leaves
the session's total cost at 0, not 0.002, because the cost update sits
inside `if (data.usage)`.  (Message reconstruction and the thread id do
come out as claimed.) -/
theorem c4_streaming_turn_counterexample :
    (runReducer cexHost initSess c4Events).info.totalCost = 0 ∧
      (runReducer cexHost initSess c4Events).messages.map
        (fun m => (m.role, m.content.map (fun b => (b.btype, b.content, b.isComplete)))) =
        [("assistant", [(BType.text, "Hello world", true)])] ∧
      (runReducer cexHost initSess c4Events).claudeSessionId = some "abc" ∧
      (0 : Rat) ≠ (0.002 : Rat) := by
  refine ⟨by decide, by decide, by decide, by norm_num⟩

/-- C4 (amended): for the scenario-1 event sequence whose result event
carries a usage object along with a non-zero `total_cost_usd` (such as
0.002), the final per-session state has exactly one assistant message
holding one complete text block `"Hello world"`, total cost equal to the
carried value, and agent thread id `"abc"`. -/
theorem c4_streaming_turn (c : Rat) (hc : c ≠ 0) :
    (runReducer cexHost initSess (c4EventsUsage c)).messages.map
        (fun m => (m.role, m.content.map (fun b => (b.btype, b.content, b.isComplete)))) =
        [("assistant", [(BType.text, "Hello world", true)])] ∧
      (runReducer cexHost initSess (c4EventsUsage c)).info.totalCost = c ∧
      (runReducer cexHost initSess (c4EventsUsage c)).claudeSessionId = some "abc" ∧
      (runReducer cexHost initSess (c4EventsUsage c)).isStreaming = false := by
  refine ⟨rfl, ?_, rfl, rfl⟩
  show (if c ≠ 0 then c else (0 : Rat)) = c
  rw [if_pos hc]

/-- Witness for `c4_streaming_turn` at the spec's cost `0.002`. -/
theorem c4_streaming_turn_witness :
    (0.002 : Rat) ≠ 0 ∧
      (runReducer cexHost initSess (c4EventsUsage 0.002)).messages.map
        (fun m => (m.role, m.content.map (fun b => (b.btype, b.content, b.isComplete)))) =
        [("assistant", [(BType.text, "Hello world", true)])] ∧
      (runReducer cexHost initSess (c4EventsUsage 0.002)).info.totalCost = (0.002 : Rat) :=
  ⟨by norm_num, (c4_streaming_turn 0.002 (by norm_num)).1,
    (c4_streaming_turn 0.002 (by norm_num)).2.1⟩

/-- C10: a result event with no usage object leaves the token and cost
counters (the whole `SessionInfo`, hence `contextUsed`, `outputTokens`,
`totalCost`), the message list and the todo list untouched — even when a
`total_cost_usd` value is present — while still clearing the streaming
flag, thinking status, in-flight message id, block cursor, stream start
time, and tearing down the renderer, flush-timer, accumulator, flushed-
length and tool-name state. -/
theorem c10_result_without_usage (h : Host) (now : Nat) (s : SessState)
    (c : Option Rat) :
    stepEvent h now s (.resultEv none c) =
      { s with
          isStreaming := false,
          thinking := .idle,
          streamStartTime := none,
          currentMessageId := none,
          currentBlockIndex := 0,
          renderers := [],
          flushTimer := false,
          toolJsonAcc := [],
          lastFlushed := [],
          toolNames := [] } := rfl

/-! ## C5: content-block immutability after completion -/

def blockView (s : SessState) : Option (String × Bool) :=
  (s.messages.head?.bind (fun m => m.content.head?)).map (fun b => (b.content, b.isComplete))

def c5Pre : List REvent :=
  [.messageStart none,
    .blockStart (some 0) (some ⟨"text", none, none, none, none⟩),
    .blockDelta (some 0) (some (.textDelta (some "Hi"))),
    .blockStop (some 0)]

def c5Ext : List REvent :=
  c5Pre ++ [.blockDelta (some 0) (some (.textDelta (some "X"))), .frameFire 0 5]

def c5GrowPre : List REvent :=
  [.messageStart none,
    .blockStart (some 0) (some ⟨"text", none, none, none, none⟩),
    .blockDelta (some 0) (some (.textDelta (some "Hi"))),
    .frameFire 0 10]

def c5GrowExt : List REvent :=
  c5GrowPre ++ [.blockDelta (some 0) (some (.inputJsonDelta (some "\x7b"))), .flushTimerFire]

/-- C5 counterexample: (1) after `content_block_stop` completes block 0 with
content `"Hi"`, a later text delta for index 0 followed by a frame drain
mutates the completed block to `"HiX"`; (2) on an incomplete block whose
streamed content is `"Hi"`, an `input_json_delta` for the same index
followed by a timer flush replaces the content by `"{"`, which is not an
extension of `"Hi"` — so neither half of the claim holds over arbitrary
event sequences. -/
theorem c5_immutability_counterexample :
    blockView (runReducer cexHost initSess c5Pre) = some ("Hi", true) ∧
      blockView (runReducer cexHost initSess c5Ext) = some ("HiX", true) ∧
      ("HiX" : String) ≠ "Hi" ∧
      blockView (runReducer cexHost initSess c5GrowPre) = some ("Hi", false) ∧
      blockView (runReducer cexHost initSess c5GrowExt) = some ("\x7b", false) ∧
      strExt "Hi" "\x7b" = false := by
  refine ⟨by decide, by decide, by decide, by decide, by decide, by decide⟩

theorem strExt_refl (a : String) : strExt a a = true := by
  simp [strExt, List.isPrefixOf_iff_prefix]

theorem strExt_append (a t : String) : strExt a (a ++ t) = true := by
  simp [strExt, String.data_append, List.isPrefixOf_iff_prefix]

theorem mapGet_eq_none_iff (m : List (Nat × String)) (i : Nat) :
    mapGet m i = none ↔ ∀ q ∈ m, q.1 ≠ i := by
  induction m with
  | nil => simp [mapGet]
  | cons p rest ih =>
    rw [mapGet_cons]
    by_cases hp : p.1 = i
    · simp [hp]
    · simp only [if_neg hp, ih]
      constructor
      · intro h q hq
        rcases List.mem_cons.mp hq with hq | hq
        · rw [hq]; exact hp
        · exact h q hq
      · intro h q hq
        exact h q (List.mem_cons_of_mem p hq)

theorem mapGet_mapDel_self (m : List (Nat × String)) (k : Nat) :
    mapGet (mapDel m k) k = none := by
  rw [mapGet_eq_none_iff]
  intro q hq
  have := List.of_mem_filter hq
  simpa using this

theorem mapGet_mapDel_ne (m : List (Nat × String)) (k i : Nat) (h : k ≠ i) :
    mapGet (mapDel m k) i = mapGet m i := by
  induction m with
  | nil => rfl
  | cons p rest ih =>
    by_cases hp : p.1 = k
    · have hb : (p.1 == k) = true := by simpa using hp
      have hpi : p.1 ≠ i := fun hh => h (hp ▸ hh)
      have hdel : mapDel (p :: rest) k = mapDel rest k := by
        simp [mapDel, List.filter_cons, hb]
      rw [hdel, mapGet_cons, if_neg hpi]
      exact ih
    · have hb : (p.1 == k) = false := by simpa using hp
      have hdel : mapDel (p :: rest) k = p :: mapDel rest k := by
        simp [mapDel, List.filter_cons, hb]
      rw [hdel, mapGet_cons, mapGet_cons, ih]

theorem get?_updateMsgContent (msgs : List RMessage) (mid : String)
    (f : List CBlock → List CBlock) (p : Nat) :
    (updateMsgContent msgs mid f).get? p =
      (msgs.get? p).map (fun m =>
        if m.mid = mid then { m with content := f m.content } else m) := by
  simp [updateMsgContent, List.get?_map]

theorem get?_listUpdate_ne (l : List CBlock) (j i : Nat) (f : CBlock → CBlock)
    (h : j ≠ i) : (listUpdate l j f).get? i = l.get? i := by
  rw [listUpdate]
  cases hget : l.get? j with
  | none => rfl
  | some b => exact List.get?_set_ne (f b) l h

theorem get?_listUpdate_self (l : List CBlock) (i : Nat) (f : CBlock → CBlock)
    (b : CBlock) (hb : l.get? i = some b) :
    (listUpdate l i f).get? i = some (f b) := by
  rw [listUpdate, hb]
  have hi : i < l.length := by
    rcases List.get?_eq_some.mp hb with ⟨h, _⟩
    exact h
  simp [List.get?_eq_getElem?, List.getElem?_set_self, hi]

theorem flushFold_get (accm : List (Nat × String)) (idxs : List Nat) (i : Nat) :
    ∀ (c : List CBlock) (b : CBlock), c.get? i = some b →
      ∃ b', (idxs.foldl (flushStep accm) c).get? i = some b' ∧
        (b' = b ∨ ∃ a, mapGet accm i = some a ∧ a ≠ "" ∧
          b' = { b with content := a }) := by
  induction idxs with
  | nil => intro c b hb; exact ⟨b, hb, Or.inl rfl⟩
  | cons idx rest ih =>
    intro c b hb
    rw [List.foldl_cons]
    have hstep : flushStep accm c idx = c ∨
        ∃ a, mapGet accm idx = some a ∧ a ≠ "" ∧
          flushStep accm c idx =
            listUpdate c idx (fun blk => { blk with content := a }) := by
      cases hga : mapGet accm idx with
      | none => exact Or.inl (by rw [flushStep, hga])
      | some a =>
        by_cases ha : a = ""
        · refine Or.inl ?_
          rw [flushStep, hga]
          show (if a ≠ "" then _ else c) = c
          rw [if_neg (by simpa using ha)]
        · refine Or.inr ⟨a, rfl, ha, ?_⟩
          rw [flushStep, hga]
          show (if a ≠ "" then listUpdate c idx _ else c) = listUpdate c idx _
          rw [if_pos ha]
    rcases hstep with hs | ⟨a, hga, ha, hs⟩
    · rw [hs]; exact ih c b hb
    · rw [hs]
      by_cases hii : idx = i
      · subst hii
        have hb' := get?_listUpdate_self c idx
          (fun blk => { blk with content := a }) b hb
        obtain ⟨b'', hget, hcase⟩ := ih _ _ hb'
        refine ⟨b'', hget, ?_⟩
        rcases hcase with hcase | ⟨a', hga', ha', hcase⟩
        · exact Or.inr ⟨a, hga, ha, hcase⟩
        · exact Or.inr ⟨a', hga', ha', by rw [hcase]⟩
      · have hkeep : (listUpdate c idx
            (fun blk => { blk with content := a })).get? i = some b := by
          rw [get?_listUpdate_ne _ _ _ _ hii]
          exact hb
        exact ih _ _ hkeep

theorem get?_lt_len {α : Type} {l : List α} {n : Nat} {a : α}
    (h : l.get? n = some a) : n < l.length := by
  rcases List.get?_eq_some.mp h with ⟨h1, _⟩
  exact h1

theorem c5_pack_keep (MS : List RMessage) (ACC RND : List (Nat × String))
    (p i : Nat) (msg' : RMessage) (b : CBlock)
    (hmsg' : MS.get? p = some msg')
    (hblk' : msg'.content.get? i = some b)
    (hacc' : b.isComplete = true → mapGet ACC i = none)
    (hrend' : b.isComplete = true → mapGet RND i = none) :
    ∃ m' b', MS.get? p = some m' ∧ m'.content.get? i = some b' ∧
      (b.isComplete = true → b' = b ∧ mapGet ACC i = none ∧
        mapGet RND i = none) ∧
      (b.isComplete = false → strExt b.content b'.content = true ∧
        (b'.toolInput = b.toolInput ∨ b'.isComplete = true)) :=
  ⟨msg', b, hmsg', hblk', fun hc => ⟨rfl, hacc' hc, hrend' hc⟩,
    fun _ => ⟨strExt_refl b.content, Or.inl rfl⟩⟩

theorem c5_pack_msgappend (MS : List RMessage) (ACC RND : List (Nat × String))
    (newMsg : RMessage) (p i : Nat) (msg : RMessage) (b : CBlock)
    (hmsg : MS.get? p = some msg)
    (hblk : msg.content.get? i = some b)
    (hacc' : b.isComplete = true → mapGet ACC i = none)
    (hrend' : b.isComplete = true → mapGet RND i = none) :
    ∃ m' b', (MS ++ [newMsg]).get? p = some m' ∧ m'.content.get? i = some b' ∧
      (b.isComplete = true → b' = b ∧ mapGet ACC i = none ∧
        mapGet RND i = none) ∧
      (b.isComplete = false → strExt b.content b'.content = true ∧
        (b'.toolInput = b.toolInput ∨ b'.isComplete = true)) := by
  refine c5_pack_keep _ ACC RND p i msg b ?_ hblk hacc' hrend'
  rw [List.get?_append (get?_lt_len hmsg)]
  exact hmsg

theorem c5_pack_append (S1 : List RMessage) (ACC RND : List (Nat × String))
    (mid : String) (nb : CBlock) (p i : Nat) (msg1 : RMessage) (b : CBlock)
    (hmsg1 : S1.get? p = some msg1)
    (hblk1 : msg1.content.get? i = some b)
    (hacc' : b.isComplete = true → mapGet ACC i = none)
    (hrend' : b.isComplete = true → mapGet RND i = none) :
    ∃ m' b', (updateMsgContent S1 mid (fun c => c ++ [nb])).get? p = some m' ∧
      m'.content.get? i = some b' ∧
      (b.isComplete = true → b' = b ∧ mapGet ACC i = none ∧
        mapGet RND i = none) ∧
      (b.isComplete = false → strExt b.content b'.content = true ∧
        (b'.toolInput = b.toolInput ∨ b'.isComplete = true)) := by
  by_cases hm : msg1.mid = mid
  · refine c5_pack_keep _ ACC RND p i { msg1 with content := msg1.content ++ [nb] } b
      ?_ ?_ hacc' hrend'
    · rw [get?_updateMsgContent, hmsg1]
      simp only [Option.map_some']
      rw [if_pos hm]
    · show (msg1.content ++ [nb]).get? i = some b
      rw [List.get?_append (get?_lt_len hblk1)]
      exact hblk1
  · refine c5_pack_keep _ ACC RND p i msg1 b ?_ hblk1 hacc' hrend'
    rw [get?_updateMsgContent, hmsg1]
    simp only [Option.map_some']
    rw [if_neg hm]

theorem c5_pack_mapstream (MS : List RMessage) (ACC RND : List (Nat × String))
    (mid : String) (p i : Nat) (msg : RMessage) (b : CBlock)
    (hmsg : MS.get? p = some msg)
    (hblk : msg.content.get? i = some b)
    (hacc' : b.isComplete = true → mapGet ACC i = none)
    (hrend' : b.isComplete = true → mapGet RND i = none) :
    ∃ m' b', (MS.map (fun m =>
        if m.mid = mid then { m with isStreaming := false } else m)).get? p = some m' ∧
      m'.content.get? i = some b' ∧
      (b.isComplete = true → b' = b ∧ mapGet ACC i = none ∧
        mapGet RND i = none) ∧
      (b.isComplete = false → strExt b.content b'.content = true ∧
        (b'.toolInput = b.toolInput ∨ b'.isComplete = true)) := by
  by_cases hm : msg.mid = mid
  · refine c5_pack_keep _ ACC RND p i { msg with isStreaming := false } b
      ?_ hblk hacc' hrend'
    rw [List.get?_map, hmsg]
    simp only [Option.map_some']
    rw [if_pos hm]
  · refine c5_pack_keep _ ACC RND p i msg b ?_ hblk hacc' hrend'
    rw [List.get?_map, hmsg]
    simp only [Option.map_some']
    rw [if_neg hm]

theorem stopUpdate_get (S1 : List RMessage) (mid : String) (g : CBlock → CBlock)
    (p i bi : Nat) (msg1 : RMessage) (b1 : CBlock)
    (hmsg1 : S1.get? p = some msg1)
    (hblk1 : msg1.content.get? i = some b1) :
    ∃ msg' b', (updateMsgContent S1 mid (fun c => listUpdate c bi g)).get? p = some msg' ∧
      msg'.mid = msg1.mid ∧
      msg'.content.get? i = some b' ∧
      (msg1.mid = mid → bi = i → b' = g b1) ∧
      (¬(msg1.mid = mid ∧ bi = i) → b' = b1) := by
  by_cases hm : msg1.mid = mid
  · by_cases hbi : bi = i
    · subst hbi
      refine ⟨{ msg1 with content := listUpdate msg1.content bi g }, g b1, ?_, rfl,
        get?_listUpdate_self msg1.content bi g b1 hblk1,
        fun _ _ => rfl, fun hcon => absurd ⟨hm, rfl⟩ hcon⟩
      rw [get?_updateMsgContent, hmsg1]
      simp only [Option.map_some']
      rw [if_pos hm]
    · refine ⟨{ msg1 with content := listUpdate msg1.content bi g }, b1, ?_, rfl, ?_,
        fun _ hbi2 => absurd hbi2 hbi, fun _ => rfl⟩
      · rw [get?_updateMsgContent, hmsg1]
        simp only [Option.map_some']
        rw [if_pos hm]
      · show (listUpdate msg1.content bi g).get? i = some b1
        rw [get?_listUpdate_ne _ _ _ _ hbi]
        exact hblk1
  · refine ⟨msg1, b1, ?_, rfl, hblk1, fun hm2 => absurd hm2 hm, fun _ => rfl⟩
    rw [get?_updateMsgContent, hmsg1]
    simp only [Option.map_some']
    rw [if_neg hm]

theorem flushToolJson_cases (s : SessState) :
    flushToolJson s = s ∨
      ∃ mid, s.currentMessageId = some mid ∧
        ∃ lf', flushToolJson s =
          { s with
              lastFlushed := lf',
              messages := updateMsgContent s.messages mid
                (fun c => (s.toolJsonAcc.map Prod.fst).foldl (flushStep s.toolJsonAcc) c) } := by
  simp only [flushToolJson]
  cases hmid : s.currentMessageId with
  | none => exact Or.inl rfl
  | some mid =>
    dsimp only
    split
    · exact Or.inl rfl
    · split
      · exact Or.inl rfl
      · exact Or.inr ⟨mid, rfl, _, rfl⟩

theorem stepFrame_cases (s : SessState) (j k : Nat) :
    (stepFrame s j k).toolJsonAcc = s.toolJsonAcc ∧
      ((stepFrame s j k).messages = s.messages ∨
        ∃ mid text, s.currentMessageId = some mid ∧
          (stepFrame s j k).messages = updateMsgContent s.messages mid
            (fun c => listUpdate c j (fun blk =>
              { blk with content := blk.content ++ text }))) ∧
      ((stepFrame s j k).renderers = s.renderers ∨
        ∃ v, (stepFrame s j k).renderers = mapSet s.renderers j v) := by
  simp only [stepFrame, rendererOnRender]
  cases hr : mapGet s.renderers j with
  | none => exact ⟨rfl, Or.inl rfl, Or.inl rfl⟩
  | some buf =>
    dsimp only
    split
    · exact ⟨rfl, Or.inl rfl, Or.inl rfl⟩
    · cases hmid : s.currentMessageId with
      | none =>
        dsimp only
        exact ⟨rfl, Or.inl rfl, Or.inr ⟨_, rfl⟩⟩
      | some mid =>
        dsimp only
        exact ⟨rfl, Or.inr ⟨mid, buf.take (min k buf.length), rfl, rfl⟩, Or.inr ⟨_, rfl⟩⟩

theorem blockStop_assemble (s : SessState) (mid : String) (p i bi : Nat)
    (msg : RMessage) (b : CBlock) (phase1 : List RMessage) (g : CBlock → CBlock)
    (ACC RND : List (Nat × String))
    (hmsg : s.messages.get? p = some msg)
    (hblk : msg.content.get? i = some b)
    (hphase : phase1 = s.messages ∨ ∃ t, phase1 = updateMsgContent s.messages mid
      (fun c => listUpdate c bi (fun blk => { blk with content := blk.content ++ t })))
    (hgc : ∀ blk, (g blk).isComplete = true)
    (hgcont : bi = i → ∀ blk, (g blk).content =
      (match mapGet s.toolJsonAcc i with
        | some j => if j ≠ "" then j else blk.content
        | none => blk.content))
    (haccnew : ACC = mapDel s.toolJsonAcc bi)
    (hrendnew : RND = s.renderers ∨ RND = mapDel s.renderers bi)
    (hacc : b.isComplete = true → mapGet s.toolJsonAcc i = none)
    (hrend : b.isComplete = true → mapGet s.renderers i = none)
    (hbic : b.isComplete = true → bi ≠ i)
    (hgrow : b.isComplete = false → ∀ a, mapGet s.toolJsonAcc i = some a →
      strExt b.content a = true) :
    ∃ msg' b',
      (updateMsgContent phase1 mid (fun c => listUpdate c bi g)).get? p = some msg' ∧
      msg'.content.get? i = some b' ∧
      (b.isComplete = true → b' = b ∧ mapGet ACC i = none ∧ mapGet RND i = none) ∧
      (b.isComplete = false → strExt b.content b'.content = true ∧
        (b'.toolInput = b.toolInput ∨ b'.isComplete = true)) := by
  have hside : b.isComplete = true →
      mapGet ACC i = none ∧ mapGet RND i = none := by
    intro hc
    have hbi := hbic hc
    constructor
    · rw [haccnew, mapGet_mapDel_ne _ _ _ hbi]
      exact hacc hc
    · rcases hrendnew with hrn | hrn
      · rw [hrn]; exact hrend hc
      · rw [hrn, mapGet_mapDel_ne _ _ _ hbi]
        exact hrend hc
  have hcont : ∀ (b1 : CBlock), bi = i →
      (b1 = b ∨ ∃ t, b1 = { b with content := b.content ++ t }) →
      b.isComplete = false → strExt b.content (g b1).content = true := by
    intro b1 hbi hb1 hc
    rw [hgcont hbi b1]
    cases hj : mapGet s.toolJsonAcc i with
    | none =>
      show strExt b.content b1.content = true
      rcases hb1 with hb1 | ⟨t, hb1⟩
      · rw [hb1]; exact strExt_refl b.content
      · rw [hb1]; exact strExt_append b.content t
    | some j =>
      show strExt b.content (if j ≠ "" then j else b1.content) = true
      by_cases hjne : j ≠ ""
      · rw [if_pos hjne]
        exact hgrow hc j hj
      · rw [if_neg hjne]
        rcases hb1 with hb1 | ⟨t, hb1⟩
        · rw [hb1]; exact strExt_refl b.content
        · rw [hb1]; exact strExt_append b.content t
  rcases hphase with hp1 | ⟨t, hp1⟩
  · subst hp1
    obtain ⟨msg', b', hm', _, hb', hgi, hkeep⟩ :=
      stopUpdate_get s.messages mid g p i bi msg b hmsg hblk
    refine ⟨msg', b', hm', hb', ?_, ?_⟩
    · intro hc
      have hb'b : b' = b := hkeep (fun hcon => hbic hc hcon.2)
      exact ⟨hb'b, hside hc⟩
    · intro hc
      by_cases hcase : msg.mid = mid ∧ bi = i
      · have hb'e : b' = g b := hgi hcase.1 hcase.2
        rw [hb'e]
        exact ⟨hcont b hcase.2 (Or.inl rfl) hc, Or.inr (hgc b)⟩
      · have hb'b : b' = b := hkeep hcase
        rw [hb'b]
        exact ⟨strExt_refl b.content, Or.inl rfl⟩
  · subst hp1
    obtain ⟨msg1, b1, hm1, hmid1, hb1, hg1, hkeep1⟩ :=
      stopUpdate_get s.messages mid
        (fun blk => { blk with content := blk.content ++ t }) p i bi msg b hmsg hblk
    obtain ⟨msg', b', hm', _, hb', hg2, hkeep2⟩ :=
      stopUpdate_get _ mid g p i bi msg1 b1 hm1 hb1
    refine ⟨msg', b', hm', hb', ?_, ?_⟩
    · intro hc
      have h1 : b1 = b := hkeep1 (fun hcon => hbic hc hcon.2)
      have h2 : b' = b1 := hkeep2 (fun hcon => hbic hc hcon.2)
      exact ⟨h2.trans h1, hside hc⟩
    · intro hc
      by_cases hcase : msg.mid = mid ∧ bi = i
      · have hb1e : b1 = { b with content := b.content ++ t } := hg1 hcase.1 hcase.2
        have hmeq : msg1.mid = mid := by rw [hmid1]; exact hcase.1
        have hb'e : b' = g b1 := hg2 hmeq hcase.2
        rw [hb'e]
        exact ⟨hcont b1 hcase.2 (Or.inr ⟨t, hb1e⟩) hc, Or.inr (hgc b1)⟩
      · have h1 : b1 = b := hkeep1 hcase
        have h2 : b' = b1 := hkeep2 (by
          intro hcon
          exact hcase ⟨hmid1 ▸ hcon.1, hcon.2⟩)
        rw [h2, h1]
        exact ⟨strExt_refl b.content, Or.inl rfl⟩

/-- C5 (amended): per-event preservation.  Once `content_block_stop` has set
`isComplete` — the completing stop deletes the index's accumulator and
renderer entries, so `hacc`/`hrend` hold from then on — no event that is
not a content-block delta, stop or frame drain targeting that same index
(which well-formed upstream streams never emit after the stop) changes the
block's `content`, `toolInput` or `isComplete`, and the absence of
accumulator/renderer entries for the index persists, so the immutability
carries inductively over the rest of the run.  While `isComplete` is false,
every event leaves the block's content an extension of itself (given that
accumulated tool JSON for the index extends it), and `toolInput` changes
only in a step that sets `isComplete`. -/
theorem c5_block_immutability (h : Host) (now : Nat) (s : SessState) (e : REvent)
    (p i : Nat) (msg : RMessage) (b : CBlock)
    (hmsg : s.messages.get? p = some msg)
    (hblk : msg.content.get? i = some b)
    (hacc : b.isComplete = true → mapGet s.toolJsonAcc i = none)
    (hrend : b.isComplete = true → mapGet s.renderers i = none)
    (hdelta : b.isComplete = true → ∀ idx d, e = REvent.blockDelta idx d →
      idx.getD s.currentBlockIndex ≠ i)
    (hstop : b.isComplete = true → ∀ idx, e = REvent.blockStop idx →
      idx.getD s.currentBlockIndex ≠ i)
    (hframe : b.isComplete = true → ∀ k, e ≠ REvent.frameFire i k)
    (hgrow : b.isComplete = false → ∀ a, mapGet s.toolJsonAcc i = some a →
      strExt b.content a = true) :
    ∃ msg' b', (stepEvent h now s e).messages.get? p = some msg' ∧
      msg'.content.get? i = some b' ∧
      (b.isComplete = true → b' = b ∧
        mapGet (stepEvent h now s e).toolJsonAcc i = none ∧
        mapGet (stepEvent h now s e).renderers i = none) ∧
      (b.isComplete = false → strExt b.content b'.content = true ∧
        (b'.toolInput = b.toolInput ∨ b'.isComplete = true)) := by
  cases e with
  | statusEv st =>
    simp only [stepEvent]
    by_cases hst : st = "stopped"
    · rw [if_pos hst]
      exact c5_pack_keep _ _ _ p i msg b hmsg hblk hacc hrend
    · rw [if_neg hst]
      exact c5_pack_keep _ _ _ p i msg b hmsg hblk hacc hrend
  | errorEv =>
    exact c5_pack_keep _ _ _ p i msg b hmsg hblk hacc hrend
  | heartbeatEv =>
    exact c5_pack_keep _ _ _ p i msg b hmsg hblk hacc hrend
  | systemInit model slash sid =>
    exact c5_pack_keep _ _ _ p i msg b hmsg hblk hacc hrend
  | messageStart usage =>
    refine c5_pack_keep _ _ _ p i msg b ?_ hblk hacc hrend
    show (s.messages ++ [_]).get? p = some msg
    rw [List.get?_append (get?_lt_len hmsg)]
    exact hmsg
  | blockStart idx cb =>
    simp only [stepEvent]
    cases hmid : s.currentMessageId with
    | none =>
      exact c5_pack_keep _ _ _ p i msg b hmsg hblk hacc hrend
    | some mid =>
      cases cb with
      | none => exact c5_pack_keep _ _ _ p i msg b hmsg hblk hacc hrend
      | some block =>
        dsimp only
        exact c5_pack_append _ _ _ _ _ p i msg b hmsg hblk hacc hrend
  | blockDelta idx delta =>
    simp only [stepEvent]
    cases hmid : s.currentMessageId with
    | none =>
      exact c5_pack_keep _ _ _ p i msg b hmsg hblk hacc hrend
    | some mid =>
      cases delta with
      | none => exact c5_pack_keep _ _ _ p i msg b hmsg hblk hacc hrend
      | some d =>
        have hne : b.isComplete = true → idx.getD s.currentBlockIndex ≠ i := by
          intro hc
          exact hdelta hc idx (some d) rfl
        cases d with
        | textDelta t =>
          dsimp only
          by_cases ht : t.getD "" = ""
          · rw [if_neg (by simpa using ht)]
            exact c5_pack_keep _ _ _ p i msg b hmsg hblk hacc hrend
          · rw [if_pos ht]
            refine c5_pack_keep _ _ _ p i msg b hmsg hblk hacc ?_
            intro hc
            show mapGet (mapSet s.renderers _ _) i = none
            rw [mapGet_mapSet_ne _ _ _ _ (hne hc)]
            exact hrend hc
        | thinkingDelta t =>
          dsimp only
          by_cases ht : t.getD "" = ""
          · rw [if_neg (by simpa using ht)]
            exact c5_pack_keep _ _ _ p i msg b hmsg hblk hacc hrend
          · rw [if_pos ht]
            refine c5_pack_keep _ _ _ p i msg b hmsg hblk hacc ?_
            intro hc
            show mapGet (mapSet s.renderers _ _) i = none
            rw [mapGet_mapSet_ne _ _ _ _ (hne hc)]
            exact hrend hc
        | inputJsonDelta pj =>
          dsimp only
          by_cases hpj : pj.getD "" = ""
          · rw [if_neg (by simpa using hpj)]
            exact c5_pack_keep _ _ _ p i msg b hmsg hblk hacc hrend
          · rw [if_pos hpj]
            refine c5_pack_keep _ _ _ p i msg b hmsg hblk ?_ hrend
            intro hc
            show mapGet (mapSet s.toolJsonAcc _ _) i = none
            rw [mapGet_mapSet_ne _ _ _ _ (hne hc)]
            exact hacc hc
  | blockStop idx =>
    simp only [stepEvent, rendererOnRender]
    cases hmid : s.currentMessageId with
    | none => exact c5_pack_keep _ _ _ p i msg b hmsg hblk hacc hrend
    | some mid =>
      have hbic : b.isComplete = true → idx.getD s.currentBlockIndex ≠ i :=
        fun hc => hstop hc idx rfl
      dsimp only
      cases hr : mapGet s.renderers (idx.getD s.currentBlockIndex) with
      | none =>
        dsimp only
        refine blockStop_assemble s mid p i (idx.getD s.currentBlockIndex) msg b
          _ _ _ _ hmsg hblk (Or.inl rfl) ?_ ?_ rfl (Or.inl rfl)
          hacc hrend hbic hgrow
        · intro blk
          rfl
        · intro hbi blk
          rw [← hbi]
      | some buf =>
        dsimp only
        by_cases hbuf : buf ≠ ""
        · rw [if_pos hbuf]
          dsimp only
          refine blockStop_assemble s mid p i (idx.getD s.currentBlockIndex) msg b
            _ _ _ _ hmsg hblk (Or.inr ⟨buf, rfl⟩) ?_ ?_ rfl
            (Or.inr rfl) hacc hrend hbic hgrow
          · intro blk
            rfl
          · intro hbi blk
            rw [← hbi]
        · rw [if_neg hbuf]
          refine blockStop_assemble s mid p i (idx.getD s.currentBlockIndex) msg b
            _ _ _ _ hmsg hblk (Or.inl rfl) ?_ ?_ rfl
            (Or.inr rfl) hacc hrend hbic hgrow
          · intro blk
            rfl
          · intro hbi blk
            rw [← hbi]
  | messageDelta usage =>
    simp only [stepEvent]
    cases usage with
    | none => exact c5_pack_keep _ _ _ p i msg b hmsg hblk hacc hrend
    | some u =>
      dsimp only
      cases hot : u.outputTokens with
      | none => exact c5_pack_keep _ _ _ p i msg b hmsg hblk hacc hrend
      | some n =>
        dsimp only
        by_cases hn : n ≠ 0
        · rw [if_pos hn]
          exact c5_pack_keep _ _ _ p i msg b hmsg hblk hacc hrend
        · rw [if_neg hn]
          exact c5_pack_keep _ _ _ p i msg b hmsg hblk hacc hrend
  | messageStop =>
    simp only [stepEvent]
    cases hmid : s.currentMessageId with
    | none => exact c5_pack_keep _ _ _ p i msg b hmsg hblk hacc hrend
    | some mid =>
      dsimp only
      by_cases hm : msg.mid = mid
      · refine c5_pack_keep _ _ _ p i { msg with isStreaming := false } b ?_ hblk hacc hrend
        rw [List.get?_map, hmsg]
        simp only [Option.map_some']
        rw [if_pos hm]
      · refine c5_pack_keep _ _ _ p i msg b ?_ hblk hacc hrend
        rw [List.get?_map, hmsg]
        simp only [Option.map_some']
        rw [if_neg hm]
  | assistantEv content uuid =>
    simp only [stepEvent]
    cases hmid : s.currentMessageId with
    | none =>
      cases content with
      | none => exact c5_pack_keep _ _ _ p i msg b hmsg hblk hacc hrend
      | some blocks =>
        dsimp only
        refine c5_pack_keep _ _ _ p i msg b ?_ hblk hacc hrend
        show (s.messages ++ [_]).get? p = some msg
        rw [List.get?_append (get?_lt_len hmsg)]
        exact hmsg
    | some mid =>
      exact c5_pack_keep _ _ _ p i msg b hmsg hblk hacc hrend
  | resultEv usage totalCost =>
    exact c5_pack_keep _ _ _ p i msg b hmsg hblk (fun _ => rfl) (fun _ => rfl)
  | flushTimerFire =>
    have hse : stepEvent h now s .flushTimerFire = flushToolJson s := rfl
    rw [hse]
    rcases flushToolJson_cases s with hflush | ⟨mid, _, lf', hflush⟩
    · rw [hflush]
      exact c5_pack_keep _ _ _ p i msg b hmsg hblk hacc hrend
    · rw [hflush]
      dsimp only
      by_cases hm : msg.mid = mid
      · have hmm : (updateMsgContent s.messages mid
            (fun c => (s.toolJsonAcc.map Prod.fst).foldl (flushStep s.toolJsonAcc) c)).get? p =
            some { msg with content :=
              (s.toolJsonAcc.map Prod.fst).foldl (flushStep s.toolJsonAcc) msg.content } := by
          rw [get?_updateMsgContent, hmsg]
          simp only [Option.map_some']
          rw [if_pos hm]
        obtain ⟨b', hget, hcase⟩ :=
          flushFold_get s.toolJsonAcc (s.toolJsonAcc.map Prod.fst) i msg.content b hblk
        refine ⟨_, b', hmm, hget, ?_, ?_⟩
        · intro hc
          rcases hcase with hcase | ⟨a, hga, _, _⟩
          · exact ⟨hcase, hacc hc, hrend hc⟩
          · rw [hacc hc] at hga
            exact absurd hga (by simp)
        · intro hc
          rcases hcase with hcase | ⟨a, hga, ha, hcase⟩
          · rw [hcase]
            exact ⟨strExt_refl b.content, Or.inl rfl⟩
          · rw [hcase]
            exact ⟨hgrow hc a hga, Or.inl rfl⟩
      · refine c5_pack_keep _ _ _ p i msg b ?_ hblk hacc hrend
        rw [get?_updateMsgContent, hmsg]
        simp only [Option.map_some']
        rw [if_neg hm]
  | frameFire j k =>
    have hse : stepEvent h now s (.frameFire j k) = stepFrame s j k := rfl
    rw [hse]
    obtain ⟨hacc2, hmsgs, hrv⟩ := stepFrame_cases s j k
    have hacc3 : b.isComplete = true → mapGet (stepFrame s j k).toolJsonAcc i = none := by
      intro hc
      rw [hacc2]
      exact hacc hc
    have hrend3 : b.isComplete = true → mapGet (stepFrame s j k).renderers i = none := by
      intro hc
      have hji : j ≠ i := by
        intro hh
        exact hframe hc k (by rw [hh])
      rcases hrv with hrv | ⟨v, hrv⟩
      · rw [hrv]; exact hrend hc
      · rw [hrv, mapGet_mapSet_ne _ _ _ _ hji]
        exact hrend hc
    rcases hmsgs with hmsgs | ⟨mid, text, _, hmsgs⟩
    · rw [hmsgs]
      exact ⟨msg, b, hmsg, hblk, fun hc => ⟨rfl, hacc3 hc, hrend3 hc⟩,
        fun _ => ⟨strExt_refl b.content, Or.inl rfl⟩⟩
    · rw [hmsgs]
      by_cases hm : msg.mid = mid
      · by_cases hji : j = i
        · subst hji
          refine ⟨{ msg with content := (listUpdate msg.content j
              (fun blk => { blk with content := blk.content ++ text })) },
            { b with content := b.content ++ text }, ?_, ?_, ?_, ?_⟩
          · rw [get?_updateMsgContent, hmsg]
            simp only [Option.map_some']
            rw [if_pos hm]
          · exact get?_listUpdate_self msg.content j _ b hblk
          · intro hc
            exact absurd rfl (hframe hc k)
          · intro _
            exact ⟨strExt_append b.content text, Or.inl rfl⟩
        · refine ⟨{ msg with content := (listUpdate msg.content j
              (fun blk => { blk with content := blk.content ++ text })) }, b,
            ?_, ?_, fun hc => ⟨rfl, hacc3 hc, hrend3 hc⟩,
            fun _ => ⟨strExt_refl b.content, Or.inl rfl⟩⟩
          · rw [get?_updateMsgContent, hmsg]
            simp only [Option.map_some']
            rw [if_pos hm]
          · show (listUpdate msg.content j _).get? i = some b
            rw [get?_listUpdate_ne _ _ _ _ hji]
            exact hblk
      · refine ⟨msg, b, ?_, hblk, fun hc => ⟨rfl, hacc3 hc, hrend3 hc⟩,
          fun _ => ⟨strExt_refl b.content, Or.inl rfl⟩⟩
        rw [get?_updateMsgContent, hmsg]
        simp only [Option.map_some']
        rw [if_neg hm]

def c5WitBlock : CBlock := ⟨"b1", .text, "Hi", false, none, none, none⟩

def c5WitMsg : RMessage := ⟨"m1", "assistant", [c5WitBlock], true⟩

def c5WitState : SessState := { initSess with messages := [c5WitMsg] }

theorem c5_block_immutability_witness :
    ∃ msg' b',
      (stepEvent cexHost 0 c5WitState REvent.heartbeatEv).messages.get? 0 = some msg' ∧
      msg'.content.get? 0 = some b' ∧
      (c5WitBlock.isComplete = true → b' = c5WitBlock ∧
        mapGet (stepEvent cexHost 0 c5WitState REvent.heartbeatEv).toolJsonAcc 0 = none ∧
        mapGet (stepEvent cexHost 0 c5WitState REvent.heartbeatEv).renderers 0 = none) ∧
      (c5WitBlock.isComplete = false → strExt c5WitBlock.content b'.content = true ∧
        (b'.toolInput = c5WitBlock.toolInput ∨ b'.isComplete = true)) :=
  c5_block_immutability cexHost 0 c5WitState REvent.heartbeatEv 0 0 c5WitMsg c5WitBlock
    rfl rfl
    (fun hc => nomatch hc) (fun hc => nomatch hc)
    (fun hc => nomatch hc) (fun hc => nomatch hc) (fun hc => nomatch hc)
    (fun _ a ha => nomatch ha)

end ClaudeGUI
